import Mathlib

/-!
Verification of the Yoink extraction-service job orchestration core.

This file shallowly embeds the Python sources of the repository
(`backend/yoink/api/jobs.py`, `worker.py`, `routes.py`, `storage.py`,
`user_jobs.py`) as executable Lean definitions and proves the spec
claims about them.

Modelling conventions:
* The SQLite job table (after schema migration) is a `List JobRow`;
  each `JobStore.*` definition mirrors the SQL statement executed by
  the corresponding `JobStore` method.
* Schema migration (`JobStore._migrate`) is modelled separately at the
  raw-SQL level (`RawTable`), where rows are association lists of
  column names to `SqlValue`s, because the migration claim is about
  column presence and defaults.
* Async calls to external collaborators (Supabase, the extraction
  pipeline, the filesystem, authentication) are replaced by explicit
  oracle arguments: each `await` on an external service becomes a
  parameter holding that call's outcome (`Except` for calls that can
  raise).  Route handlers become pure functions from (inputs, oracles,
  local state) to (HTTP outcome, new local state).
* The filesystem is a flat list of existing paths; `shutil.rmtree` on
  a directory removes the path and every path under it.
* Timestamps (`datetime.now(...).isoformat()`) are threaded as opaque
  `now : String` arguments.
-/

/-- HTTP error raised by a route handler, mirroring fastapi
`HTTPException(status_code=..., detail=...)`. -/
structure HTTPError where
  status_code : Nat
  detail : String
deriving DecidableEq, Repr

/-- Row of the `jobs` table after migration, mirroring the columns of
`JOBS_SCHEMA` in `jobs.py`.  `INTEGER` columns are `Int`, nullable
`TEXT` columns are `Option String`. -/
structure JobRow where
  id : String
  user_id : Option String
  status : String
  filename : String
  upload_path : Option String
  result_path : Option String
  error : Option String
  current_page : Int
  total_pages : Int
  total_components : Int
  created_at : String
  updated_at : String
deriving DecidableEq, Repr

namespace JobStore

/-- Embeds `VALID_STATUSES` from `jobs.py`. -/
def VALID_STATUSES : List String :=
  ["queued", "processing", "completed", "failed", "delivered"]

/-- Extra fields passed as `**kwargs` to `JobStore.update_status`.
The Python code builds a dynamic SET clause from the keyword
arguments; the call sites in this repository only ever pass the five
fields below, so the dynamic clause is modelled as a record of
optional assignments (`none` = field not passed). -/
structure StatusExtra where
  error : Option String
  result_path : Option String
  current_page : Option Int
  total_pages : Option Int
  total_components : Option Int
deriving DecidableEq, Repr

/-- StatusExtra with no extra keyword arguments. -/
def noExtra : StatusExtra :=
  { error := none, result_path := none, current_page := none,
    total_pages := none, total_components := none }

/-- Applies the SET assignments of an `update_status` call to one row. -/
def applyExtra (r : JobRow) (status : String) (e : StatusExtra) (now : String) : JobRow :=
  { r with
    status := status
    updated_at := now
    error := match e.error with | some v => some v | none => r.error
    result_path := match e.result_path with | some v => some v | none => r.result_path
    current_page := match e.current_page with | some v => v | none => r.current_page
    total_pages := match e.total_pages with | some v => v | none => r.total_pages
    total_components := match e.total_components with | some v => v | none => r.total_components }

/-- Applies an UPDATE ... WHERE id = ? to the table: every row whose
`id` matches is transformed by `f`. -/
def setRow (st : List JobRow) (jobId : String) (f : JobRow → JobRow) : List JobRow :=
  st.map fun r => if r.id = jobId then f r else r

/-- Embeds `JobStore.get_job`: SELECT * FROM jobs WHERE id = ?. -/
def get_job (st : List JobRow) (jobId : String) : Option JobRow :=
  st.find? fun r => r.id = jobId

/-- Embeds `JobStore.update_status`: asserts the status is valid
(raising `AssertionError`, modelled as `.error`), then updates status,
`updated_at` and the extra keyword fields on the matching row. -/
def update_status (st : List JobRow) (jobId : String) (status : String)
    (extra : StatusExtra) (now : String) : Except String (List JobRow) :=
  if status ∈ VALID_STATUSES then
    .ok (setRow st jobId fun r => applyExtra r status extra now)
  else
    .error ("Invalid status: " ++ status)

/-- Embeds `JobStore.update_progress`: UPDATE jobs SET current_page = ?,
total_pages = ?, updated_at = ? WHERE id = ?. -/
def update_progress (st : List JobRow) (jobId : String)
    (current_page total_pages : Int) (now : String) : List JobRow :=
  setRow st jobId fun r =>
    { r with current_page := current_page, total_pages := total_pages, updated_at := now }

/-- Embeds `JobStore.delete_job`: DELETE FROM jobs WHERE id = ?;
returns whether a row was deleted together with the new table. -/
def delete_job (st : List JobRow) (jobId : String) : Bool × List JobRow :=
  (st.any fun r => r.id = jobId, st.filter fun r => ¬ r.id = jobId)

/-- Embeds `JobStore.rename_job`: UPDATE jobs SET filename = ?,
updated_at = ? WHERE id = ?; returns whether a row matched. -/
def rename_job (st : List JobRow) (jobId : String) (filename : String)
    (now : String) : Bool × List JobRow :=
  (st.any fun r => r.id = jobId,
   setRow st jobId fun r => { r with filename := filename, updated_at := now })

end JobStore

/-! Raw-SQL level model of the jobs table, used for the schema-migration
claim.  A row is an association list from column names to SQL values in
column order; SQLite rows always carry a value for every column. -/

/-- SQL storage value: NULL, INTEGER or TEXT. -/
inductive SqlValue
  | null
  | int (n : Int)
  | text (s : String)
deriving DecidableEq, Repr

/-- Raw jobs table: declared columns plus rows (one value per column). -/
structure RawTable where
  columns : List String
  rows : List (List (String × SqlValue))
deriving DecidableEq, Repr

namespace RawTable

/-- Column list of `JOBS_SCHEMA` in `jobs.py` (fresh `CREATE TABLE`). -/
def jobsSchemaColumns : List String :=
  ["id", "user_id", "status", "filename", "upload_path", "result_path",
   "error", "current_page", "total_pages", "total_components",
   "created_at", "updated_at"]

/-- Embeds ALTER TABLE jobs ADD COLUMN c ... DEFAULT d: the column is
appended and every existing row reads the default for it. -/
def addColumn (t : RawTable) (c : String) (dflt : SqlValue) : RawTable :=
  { columns := t.columns ++ [c], rows := t.rows.map (· ++ [(c, dflt)]) }

/-- Embeds `JobStore._migrate`: reads the column set once (PRAGMA
table_info), then adds `total_components INTEGER DEFAULT 0` and
`user_id TEXT` (default NULL) when absent from that snapshot. -/
def migrate (t : RawTable) : RawTable :=
  let cols := t.columns
  let t1 := if "total_components" ∈ cols then t
            else addColumn t "total_components" (SqlValue.int 0)
  if "user_id" ∈ cols then t1
  else addColumn t1 "user_id" SqlValue.null

/-- Assigns value v to every entry of the row whose key is k
(one UPDATE SET item applied to a row). -/
def setCol (row : List (String × SqlValue)) (kv : String × SqlValue) :
    List (String × SqlValue) :=
  row.map fun e => if e.1 = kv.1 then (e.1, kv.2) else e

/-- Embeds `JobStore.update_status` at the SQL level: asserts the
status is valid, then runs UPDATE jobs SET status = ?, updated_at = ?,
k1 = ?, ... WHERE id = ?.  SQLite rejects the statement when a SET
column does not exist in the table. -/
def update_status (t : RawTable) (jobId status : String)
    (kwargs : List (String × SqlValue)) (now : String) :
    Except String RawTable :=
  if status ∈ JobStore.VALID_STATUSES then
    let sets := [("status", SqlValue.text status), ("updated_at", SqlValue.text now)] ++ kwargs
    if sets.all (fun kv => kv.1 ∈ t.columns) then
      .ok { t with rows := t.rows.map fun row =>
              if row.lookup "id" = some (SqlValue.text jobId) then
                sets.foldl setCol row
              else row }
    else
      .error "no such column"
  else
    .error ("Invalid status: " ++ status)

/-- Embeds `JobStore.get_job` at the SQL level: SELECT * FROM jobs
WHERE id = ?. -/
def get_job (t : RawTable) (jobId : String) :
    Option (List (String × SqlValue)) :=
  t.rows.find? fun row => row.lookup "id" = some (SqlValue.text jobId)

/-- Well-formed table: every row has exactly the declared columns as
keys, in order. -/
def Wf (t : RawTable) : Prop :=
  ∀ row ∈ t.rows, row.map Prod.fst = t.columns

end RawTable

/-- Demo job row used to exercise the store operations on concrete data. -/
def demoRow : JobRow :=
  { id := "j1", user_id := none, status := "processing", filename := "a.pdf",
    upload_path := some "./uploads/u1/a.pdf", result_path := none, error := none,
    current_page := 5, total_pages := 10, total_components := 0,
    created_at := "t0", updated_at := "t0" }

/-- Demo store holding a single row. -/
def demoStore : List JobRow := [demoRow]

/-- Old-schema columns: the jobs table as created before the
`total_components` and `user_id` columns were introduced. -/
def oldSchemaColumns : List String :=
  ["id", "status", "filename", "upload_path", "result_path",
   "error", "current_page", "total_pages", "created_at", "updated_at"]

/-- Demo pre-existing table written by an old version of the code. -/
def demoOldTable : RawTable :=
  { columns := oldSchemaColumns,
    rows := [[("id", SqlValue.text "j1"), ("status", SqlValue.text "queued"),
              ("filename", SqlValue.text "a.pdf"),
              ("upload_path", SqlValue.text "./uploads/u1/a.pdf"),
              ("result_path", SqlValue.null), ("error", SqlValue.null),
              ("current_page", SqlValue.int 0), ("total_pages", SqlValue.int 0),
              ("created_at", SqlValue.text "t0"), ("updated_at", SqlValue.text "t0")]] }

/-! Python string and path helpers used by the rename route handler. -/

/-- Whitespace characters removed by Python str.strip() (ASCII range;
the Unicode whitespace extras are irrelevant to the claims). -/
def pyWhitespace (c : Char) : Bool :=
  c = ' ' || c = '\t' || c = '\n' || c = '\r' || c.toNat = 11 || c.toNat = 12

/-- Embeds Python str.strip(): removes leading and trailing whitespace. -/
def pyStrip (s : String) : String :=
  ⟨((s.data.dropWhile pyWhitespace).reverse.dropWhile pyWhitespace).reverse⟩

/-- Embeds `MAX_BASE_NAME_LENGTH` from routes.py. -/
def MAX_BASE_NAME_LENGTH : Nat := 120

/-- Character class of `INVALID_BASE_NAME_PATTERN` in routes.py:
backslash, forward slash, C0 control characters, DEL. -/
def invalidNameChar (c : Char) : Bool :=
  c = '\\' || c = '/' || c.toNat ≤ 31 || c.toNat = 127

/-- Embeds `_validate_base_name` from routes.py. -/
def validate_base_name (base_name : String) : Except HTTPError String :=
  let cleaned := pyStrip base_name
  if cleaned = "" then
    .error { status_code := 422, detail := "Name cannot be empty" }
  else if cleaned.length > MAX_BASE_NAME_LENGTH then
    .error { status_code := 422, detail := "Name must be at most 120 characters" }
  else if cleaned.data.any invalidNameChar then
    .error { status_code := 422,
             detail := "Name cannot contain slashes or control characters" }
  else
    .ok cleaned

/-- Splits a character list on a separator with Python str.split(sep)
semantics: an empty input yields one empty part is kept per separator
occurrence. -/
def splitOnChar (sep : Char) : List Char → List (List Char)
  | [] => [[]]
  | c :: cs =>
    let r := splitOnChar sep cs
    if c = sep then [] :: r
    else
      match r with
      | [] => [[c]]
      | h :: t => (c :: h) :: t

/-- Embeds pathlib PurePosixPath component parsing: the path is split on
the slash, spurious empty and single-dot components are dropped, and
`name` is the last remaining component (empty when there is none). -/
def pathlibName (s : List Char) : List Char :=
  let parts := (splitOnChar '/' s).filter fun p => p ≠ [] ∧ p ≠ ['.']
  (parts.getLast?).getD []

/-- Embeds pathlib PurePath.suffix: with i the index of the last dot of
`name`, the suffix is name[i:] when 0 < i < len(name) - 1 and empty
otherwise.  Computed from the reversed name, whose prefix e is the run
of characters after the last dot. -/
def pySuffix (s : List Char) : List Char :=
  let name := pathlibName s
  let e := name.reverse.takeWhile fun c => c ≠ '.'
  if e.length < name.length ∧ 0 < e.length ∧ e.length + 1 < name.length then
    '.' :: e.reverse
  else []

/-- String form of pySuffix, as used for `Path(old_title).suffix`. -/
def pySuffixStr (s : String) : String := ⟨pySuffix s.data⟩

/-- Embeds pathlib PurePath.stem: the final component without its suffix. -/
def pyStem (s : List Char) : List Char :=
  let name := pathlibName s
  name.take (name.length - (pySuffix s).length)

/-- Remote job row fetched from Supabase (`user_jobs.UserJob`). -/
structure UserJob where
  id : String
  user_id : String
  title : String
  storage_path : Option String
deriving DecidableEq, Repr

/-- Response body of PATCH /jobs/{id}/rename (`RenameJobResponse`). -/
structure RenameJobResponse where
  job_id : String
  title : String
deriving DecidableEq, Repr

/-- Removes one filesystem target: a file path is unlinked, a directory
is removed recursively (every path at or under it is dropped).  The
best-effort removal of a newly-empty parent directory is not modelled;
no claim depends on it. -/
def removePathTree (fs : List String) (target : String) : List String :=
  fs.filter fun p => ¬ (p = target ∨ (target ++ "/").isPrefixOf p)

/-- Embeds `ExtractionWorker.cleanup_job_files`: removes the upload and
result paths when present (idempotent; missing paths are fine). -/
def cleanup_job_files (fs : List String) (upload_path result_path : Option String) :
    List String :=
  let fs1 := match upload_path with
    | some p => removePathTree fs p
    | none => fs
  match result_path with
  | some p => removePathTree fs1 p
  | none => fs1

/-- Embeds the `delete_job` route handler of routes.py.  `requester` is
the resolved optional user (`get_optional_user`), `supabaseConfigured`
tells whether `app.state.supabase` is set, `remoteJob` is the outcome
of `get_user_job` and `remoteDelete` the outcome of `delete_user_job`
(`.error` = the awaited call raised, `.ok n` = n storage objects were
deleted).  `jobId` is already normalized (`_normalize_job_id`, which
raises 422 on malformed IDs, happens upstream).  Returns the HTTP
outcome (204 = `.ok ()`) with the local store and filesystem. -/
def delete_job_route (requester : Option String) (jobId : String)
    (store : List JobRow) (fs : List String) (supabaseConfigured : Bool)
    (remoteJob : Option UserJob) (remoteDelete : Except String Nat) :
    Except HTTPError Unit × List JobRow × List String :=
  match requester with
  | none =>
    (.error { status_code := 401, detail := "Authentication required" }, store, fs)
  | some _ =>
    let local_job := JobStore.get_job store jobId
    if (local_job.map (fun j => j.user_id.isNone)).getD false then
      (.error { status_code := 403, detail := "Guest jobs cannot be deleted manually" },
       store, fs)
    else if ¬ supabaseConfigured then
      (.error { status_code := 502, detail := "Supabase is not configured" }, store, fs)
    else
      match remoteJob with
      | none => (.error { status_code := 404, detail := "Job not found" }, store, fs)
      | some _ =>
        match remoteDelete with
        | .error _ =>
          (.error { status_code := 502, detail := "Failed to delete job resources" },
           store, fs)
        | .ok _ =>
          match local_job with
          | some lj =>
            (.ok (), (JobStore.delete_job store jobId).2,
             cleanup_job_files fs lj.upload_path lj.result_path)
          | none => (.ok (), store, fs)

/-- Embeds the `rename_job` route handler of routes.py.  Oracles as in
`delete_job_route`, with `remoteRename` the outcome of
`rename_user_job`.  Returns the HTTP outcome with the local store. -/
def rename_job_route (requester : Option String) (jobId : String)
    (base_name : String) (store : List JobRow) (supabaseConfigured : Bool)
    (remoteJob : Option UserJob) (remoteRename : Except String Unit)
    (now : String) :
    Except HTTPError RenameJobResponse × List JobRow :=
  match requester with
  | none =>
    (.error { status_code := 401, detail := "Authentication required" }, store)
  | some requester_id =>
    if ¬ supabaseConfigured then
      (.error { status_code := 502, detail := "Supabase is not configured" }, store)
    else
      match remoteJob with
      | none => (.error { status_code := 404, detail := "Job not found" }, store)
      | some user_job =>
        match validate_base_name base_name with
        | .error e => (.error e, store)
        | .ok cleaned =>
          let old_title := user_job.title
          let extension := pySuffixStr old_title
          let new_title := cleaned ++ extension
          if old_title = new_title then
            (.ok { job_id := jobId, title := new_title }, store)
          else
            match remoteRename with
            | .error _ =>
              (.error { status_code := 502, detail := "Failed to rename job" }, store)
            | .ok _ =>
              let store' :=
                match JobStore.get_job store jobId with
                | some lj =>
                  if lj.user_id = some requester_id then
                    (JobStore.rename_job store jobId new_title now).2
                  else store
                | none => store
              (.ok { job_id := jobId, title := new_title }, store')

/-- Demo guest job row (user_id NULL) stored locally. -/
def guestRow : JobRow :=
  { id := "g1", user_id := none, status := "completed", filename := "slides.pdf",
    upload_path := none, result_path := none, error := none,
    current_page := 1, total_pages := 1, total_components := 2,
    created_at := "t0", updated_at := "t0" }

/-- Demo store holding a single guest job. -/
def guestStore : List JobRow := [guestRow]

/-- Demo remote user job as returned by `get_user_job`. -/
def demoUserJob : UserJob :=
  { id := "j1", user_id := "alice", title := "slides.pdf", storage_path := none }

/-! Result-file data and the components pagination route
(get_result_components in routes.py).  JSON numbers carried through
unchanged (confidence, bbox) are modelled as rationals; optional JSON
keys read with .get(...) defaults are Options. -/

/-- One component entry of the result JSON. -/
structure CompData where
  id : Int
  category : Option String
  original_label : Option String
  confidence : Option Rat
  bbox : Option (List Rat)
  base64 : Option String
  url : Option String
deriving DecidableEq

/-- One page entry of the result JSON. -/
structure PageData where
  page_number : Int
  components : List CompData
deriving DecidableEq

/-- Parsed result JSON file written by the pipeline. -/
structure ResultData where
  source_file : String
  total_pages : Int
  total_components : Int
  pages : List PageData
deriving DecidableEq

/-- Component dict produced by the flattening loop of
`get_result_components` (and `ComponentOut`): getD defaults applied,
`url` chosen by guest/user mode. -/
structure ComponentOut where
  id : Int
  page_number : Int
  category : String
  original_label : String
  confidence : Rat
  bbox : List Rat
  url : String
deriving DecidableEq

/-- Builds one flattened component dict, as in the inner loop of
`get_result_components`. -/
def compOut (is_guest : Bool) (apiUrl jobId : String) (page_number : Int)
    (c : CompData) : ComponentOut :=
  { id := c.id
    page_number := page_number
    category := c.category.getD ""
    original_label := c.original_label.getD ""
    confidence := c.confidence.getD 0
    bbox := c.bbox.getD []
    url := if is_guest then
        apiUrl ++ "/static/guest/" ++ jobId ++ "/" ++ toString c.id ++ ".png"
      else c.url.getD "" }

/-- Flattens all components across pages in page order, preserving
page_number, exactly as the double loop in `get_result_components`. -/
def flatten_components (is_guest : Bool) (apiUrl jobId : String)
    (pages : List PageData) : List ComponentOut :=
  pages.flatMap fun p => p.components.map (compOut is_guest apiUrl jobId p.page_number)

/-- Response of GET /jobs/{id}/result/components
(`ComponentBatchResponse`). -/
structure ComponentBatchResponse where
  offset : Nat
  limit : Nat
  total : Nat
  has_more : Bool
  components : List ComponentOut
deriving DecidableEq

/-- Embeds the `get_result_components` route handler.  `fileExists` is
the `Path(result_path).exists()` oracle and `resultData` the parsed
JSON content.  `offset`/`limit` are naturals; the claim under scrutiny
concerns offset >= 0 and limit > 0, matching Python slice semantics on
that range (`all_components[offset : offset + limit]`). -/
def get_result_components (store : List JobRow) (jobId : String)
    (offset limit : Nat) (apiUrl : String) (fileExists : Bool)
    (resultData : ResultData) :
    Except HTTPError ComponentBatchResponse :=
  match JobStore.get_job store jobId with
  | none => .error { status_code := 404, detail := "Job not found" }
  | some job =>
    if job.status ≠ "completed" then
      .error { status_code := 409,
               detail := "Job is not completed yet. Current status: " ++ job.status }
    else match job.result_path with
    | none => .error { status_code := 404, detail := "Result file not found" }
    | some _ =>
      if ¬ fileExists then
        .error { status_code := 404, detail := "Result file not found" }
      else
        let is_guest := job.user_id.isNone
        let all_components := flatten_components is_guest apiUrl jobId resultData.pages
        let total := all_components.length
        let batch := (all_components.drop offset).take limit
        let has_more := decide (offset + limit < total)
        .ok { offset := offset, limit := limit, total := total,
              has_more := has_more, components := batch }

/-- Client paging loop described by the pagination claim: fetch the
batch at `offset`, and while `has_more` holds advance `offset` by
`limit`, concatenating the batches. -/
def collectFrom (comps : List ComponentOut) (limit : Nat) (offset : Nat) :
    List ComponentOut :=
  let batch := (comps.drop offset).take limit
  if offset + limit < comps.length then
    if 0 < limit then batch ++ collectFrom comps limit (offset + limit)
    else batch
  else batch
termination_by comps.length - offset
decreasing_by omega

/-- Demo completed guest job row with a result file. -/
def completedRow : JobRow :=
  { id := "c1", user_id := none, status := "completed", filename := "a.pdf",
    upload_path := some "./uploads/u1/a.pdf",
    result_path := some "./job_data/c1/a_extracted.json", error := none,
    current_page := 2, total_pages := 2, total_components := 3,
    created_at := "t0", updated_at := "t1" }

/-- Demo store holding the completed job. -/
def completedStore : List JobRow := [completedRow]

/-- Demo parsed result JSON with three components across two pages. -/
def demoResultData : ResultData :=
  { source_file := "a.pdf", total_pages := 2, total_components := 3,
    pages :=
      [{ page_number := 1,
         components :=
           [{ id := 0, category := some "text", original_label := some "Text",
              confidence := some 1, bbox := some [1, 2, 3, 4],
              base64 := some "QUJD", url := none },
            { id := 1, category := some "figure", original_label := none,
              confidence := none, bbox := none, base64 := some "RA==",
              url := none }] },
       { page_number := 2,
         components :=
           [{ id := 2, category := none, original_label := none,
              confidence := none, bbox := none, base64 := none,
              url := none }] }] }

/-! Sequential extraction worker (worker.py).  `run_pipeline` is the
external extraction step; it is an oracle mapping the job's upload
path to either a result or a raised exception's message. -/

/-- Result dict of `run_pipeline` (the fields the worker reads). -/
structure PipelineResult where
  total_pages : Int
  total_components : Int
deriving DecidableEq, Repr

/-- Output directory created for a job: output_base_dir / job_id. -/
def outputDirFor (base jobId : String) : String := base ++ "/" ++ jobId

/-- Embeds `shutil.rmtree(output_dir, ignore_errors=True)`: the
directory and everything under it disappear; missing dir is fine. -/
def rmtree (fs : List String) (dir : String) : List String :=
  fs.filter fun p => ¬ (p = dir ∨ (dir ++ "/").isPrefixOf p)

/-- Embeds `ExtractionWorker._process_job`.  The pipeline oracle takes
the job's upload_path (None reaches the pipeline and raises there).
Raising out of `_process_job` (only possible for the `update_status`
assertion, whose statuses here are literals) is an `.error`; all
pipeline exceptions are caught inside.  Returns the job store and the
filesystem. -/
def process_job (pipeline : Option String → Except String PipelineResult)
    (base now : String) (store : List JobRow) (fs : List String)
    (jobId : String) : Except String (List JobRow × List String) :=
  match JobStore.get_job store jobId with
  | none => .ok (store, fs)
  | some job =>
    match JobStore.update_status store jobId "processing" JobStore.noExtra now with
    | .error e => .error e
    | .ok store =>
      let odir := outputDirFor base jobId
      let fs := fs.insert odir
      match pipeline job.upload_path with
      | .ok result =>
        let result_filename : String :=
          ⟨pyStem (job.upload_path.getD "").data⟩ ++ "_extracted.json"
        let result_path := odir ++ "/" ++ result_filename
        match JobStore.update_status store jobId "completed"
          { error := none, result_path := some result_path,
            current_page := some result.total_pages,
            total_pages := some result.total_pages,
            total_components := some result.total_components } now with
        | .error e => .error e
        | .ok store => .ok (store, fs)
      | .error e =>
        let fs := rmtree fs odir
        match JobStore.update_status store jobId "failed"
          { error := some e, result_path := none, current_page := none,
            total_pages := none, total_components := none } now with
        | .error e2 => .error e2
        | .ok store => .ok (store, fs)

/-- Embeds `ExtractionWorker._process_loop`: pulls job ids in FIFO
order and processes each; an exception from `_process_job` is logged
and the loop continues with the next job, never crashing. -/
def process_loop (pipeline : Option String → Except String PipelineResult)
    (base now : String) (queue : List String)
    (s : List JobRow × List String) : List JobRow × List String :=
  queue.foldl
    (fun s jobId =>
      match process_job pipeline base now s.1 s.2 jobId with
      | .ok s' => s'
      | .error _ => s)
    s

/-! Artifact upload pipeline (storage.py).  The Supabase storage call
made by each upload task is an oracle per (object path, attempt);
the concurrency semaphore bounds parallelism only and does not affect
outcomes in this functional model. -/

/-- Embeds `BUCKET_NAME` from storage.py. -/
def BUCKET_NAME : String := "scans"

/-- Embeds `_UPLOAD_MAX_RETRIES` from storage.py. -/
def UPLOAD_MAX_RETRIES : Nat := 3

/-- Embeds `_UPLOAD_RETRY_BACKOFF` (1.0 seconds; integral, so modelled
as a natural number of seconds). -/
def UPLOAD_RETRY_BACKOFF : Nat := 1

/-- Wait slept after failed attempt k: backoff * 2^k seconds. -/
def backoffWait (attempt : Nat) : Nat := UPLOAD_RETRY_BACKOFF * 2 ^ attempt

/-- Storage object path for a component: user/job/id.png. -/
def objectPathFor (userId jobId : String) (compId : Int) : String :=
  userId ++ "/" ++ jobId ++ "/" ++ toString compId ++ ".png"

/-- Public URL derived for an object path (no round-trip needed). -/
def publicUrlFor (supabaseUrl objectPath : String) : String :=
  supabaseUrl ++ "/storage/v1/object/public/" ++ BUCKET_NAME ++ "/" ++ objectPath

/-- One scheduled upload task: destination path and payload (the
base64 text stands in for the decoded bytes; byte identity is
irrelevant to the claims). -/
structure UploadTask where
  path : String
  data : String
deriving DecidableEq

/-- Flattened (page_number, component) pairs carrying a non-empty
base64 payload — exactly the components the collection loop in
`upload_components_to_supabase` does not `continue` past. -/
def eligible_components (pages : List PageData) : List (Int × CompData) :=
  pages.flatMap fun p =>
    (p.components.filter fun c => c.base64.getD "" ≠ "").map fun c =>
      (p.page_number, c)

/-- Metadata entry appended for an eligible component. -/
def metaFor (userId jobId supabaseUrl : String) (pc : Int × CompData) :
    ComponentOut :=
  { id := pc.2.id, page_number := pc.1,
    category := pc.2.category.getD "",
    original_label := pc.2.original_label.getD "",
    confidence := pc.2.confidence.getD 0, bbox := pc.2.bbox.getD [],
    url := publicUrlFor supabaseUrl (objectPathFor userId jobId pc.2.id) }

/-- Upload task created for an eligible component. -/
def taskFor (userId jobId : String) (pc : Int × CompData) : UploadTask :=
  { path := objectPathFor userId jobId pc.2.id, data := pc.2.base64.getD "" }

/-- Meta list and task list accumulated by the collection loop of
`upload_components_to_supabase`; a component with missing or empty
base64 contributes to neither list. -/
def upload_components_plan (userId jobId supabaseUrl : String)
    (pages : List PageData) : List ComponentOut × List UploadTask :=
  ((eligible_components pages).map (metaFor userId jobId supabaseUrl),
   (eligible_components pages).map (taskFor userId jobId))

/-- Embeds the `_upload` retry loop (`for attempt in range(maxR)`):
`ok attempt` tells whether the storage upload call succeeds at that
attempt, `err attempt` is the raised exception's message otherwise.
Returns the attempts used and the backoff waits slept, or propagates
the exception of the final attempt. -/
def upload_attempts (ok : Nat → Bool) (err : Nat → String) (maxR : Nat)
    (attempt : Nat) (waits : List Nat) : Except String (Nat × List Nat) :=
  if attempt < maxR then
    if ok attempt then .ok (attempt + 1, waits)
    else if attempt = maxR - 1 then .error (err attempt)
    else upload_attempts ok err maxR (attempt + 1) (waits ++ [backoffWait attempt])
  else .ok (attempt, waits)
termination_by maxR - attempt
decreasing_by omega

/-- One `_upload` task run from attempt 0 with the source's retry
count. -/
def upload_one (ok : Nat → Bool) (err : Nat → String) :
    Except String (Nat × List Nat) :=
  upload_attempts ok err UPLOAD_MAX_RETRIES 0 []

/-- Embeds `asyncio.gather` over the upload tasks: every task runs its
retry loop; when a task exhausts its retries, its error propagates out
of the batch (the first failing task in list order, in this sequential
model of the gather). -/
def run_uploads (ok : String → Nat → Bool) (err : String → Nat → String) :
    List UploadTask → Except String (List (Nat × List Nat))
  | [] => .ok []
  | t :: ts =>
    match upload_one (ok t.path) (err t.path) with
    | .error e => .error e
    | .ok tr =>
      match run_uploads ok err ts with
      | .error e => .error e
      | .ok trs => .ok (tr :: trs)

/-- Embeds `upload_components_to_supabase`: collects metadata and
upload tasks over the pipeline output, awaits all uploads, and returns
the metadata list (URLs, no base64). -/
def upload_components_to_supabase (userId jobId supabaseUrl : String)
    (pages : List PageData) (ok : String → Nat → Bool)
    (err : String → Nat → String) : Except String (List ComponentOut) :=
  match run_uploads ok err
      (upload_components_plan userId jobId supabaseUrl pages).2 with
  | .error e => .error e
  | .ok _ => .ok (upload_components_plan userId jobId supabaseUrl pages).1

/-! ## Theorems -/

theorem JobStore.get_job_setRow (st : List JobRow) (jobId : String)
    (f : JobRow → JobRow) (hf : ∀ r, (f r).id = r.id) :
    JobStore.get_job (JobStore.setRow st jobId f) jobId
      = (JobStore.get_job st jobId).map f := by
  induction st with
  | nil => rfl
  | cons a tl ih =>
    simp only [JobStore.get_job, JobStore.setRow, List.map_cons] at *
    by_cases h : a.id = jobId
    · rw [if_pos h]
      rw [List.find?_cons_of_pos _ (by simp [hf a, h]), List.find?_cons_of_pos _ (by simp [h])]
      rfl
    · rw [if_neg h]
      rw [List.find?_cons_of_neg _ (by simp [hf a, h]), List.find?_cons_of_neg _ (by simp [h])]
      exact ih

theorem JobStore.get_job_update_progress (st : List JobRow) (jobId : String)
    (c t : Int) (n : String) (r : JobRow)
    (hr : JobStore.get_job st jobId = some r) :
    JobStore.get_job (JobStore.update_progress st jobId c t n) jobId
      = some { r with current_page := c, total_pages := t, updated_at := n } := by
  unfold JobStore.update_progress
  rw [JobStore.get_job_setRow]
  · rw [hr]; rfl
  · intro r'; rfl

theorem JobStore.update_status_ok (st : List JobRow) (jobId status : String)
    (extra : JobStore.StatusExtra) (now : String)
    (h : status ∈ JobStore.VALID_STATUSES) :
    JobStore.update_status st jobId status extra now
      = .ok (JobStore.setRow st jobId fun r => JobStore.applyExtra r status extra now) := by
  unfold JobStore.update_status
  rw [if_pos h]

theorem JobStore.get_job_applyExtra (st : List JobRow) (jobId status : String)
    (extra : JobStore.StatusExtra) (now : String) :
    JobStore.get_job
        (JobStore.setRow st jobId fun r => JobStore.applyExtra r status extra now) jobId
      = (JobStore.get_job st jobId).map
          (fun r => JobStore.applyExtra r status extra now) := by
  rw [JobStore.get_job_setRow]
  intro r'; rfl

/-- C6: `update_status` fails for every status string outside
{queued, processing, completed, failed, delivered}, and performs the
update without a validity failure for each of those five values. -/
theorem claim_c6_update_status_validity
    (st : List JobRow) (jobId status : String)
    (extra : JobStore.StatusExtra) (now : String) :
    (∃ st', JobStore.update_status st jobId status extra now = .ok st')
      ↔ status ∈ JobStore.VALID_STATUSES := by
  unfold JobStore.update_status
  by_cases h : status ∈ JobStore.VALID_STATUSES
  · simp [h]
  · simp [h]

/-- C4 counterexample: `update_progress` stores the values it is given
with no clamping, so a call with a smaller `current_page` makes the
stored counter decrease (5 stored, then a write of 3 leaves 3 < 5). -/
theorem claim_c4_counterexample :
    (JobStore.get_job demoStore "j1").map JobRow.current_page = some 5 ∧
    (JobStore.get_job demoStore "j1").map JobRow.total_pages = some 10 ∧
    (JobStore.get_job (JobStore.update_progress demoStore "j1" 3 8 "t1") "j1").map
        JobRow.current_page = some 3 ∧
    (JobStore.get_job (JobStore.update_progress demoStore "j1" 3 8 "t1") "j1").map
        JobRow.total_pages = some 8 ∧
    ¬ ((5 : Int) ≤ 3) := by
  refine ⟨rfl, rfl, rfl, rfl, by decide⟩

/-- C4 (amended): each `update_progress` call overwrites
`current_page`/`total_pages` with exactly the values passed (no
clamping against the previous row), and the terminal `completed`
`update_status` write sets both counters to the value supplied for
them; hence the stored counters are non-decreasing across two
successive progress writes exactly when the supplied values are. -/
theorem claim_c4_progress_writes
    (st : List JobRow) (jobId : String) (c₁ t₁ c₂ t₂ : Int)
    (n₁ n₂ : String) (r : JobRow)
    (hr : JobStore.get_job st jobId = some r) :
    ((JobStore.get_job (JobStore.update_progress st jobId c₁ t₁ n₁) jobId).map
        JobRow.current_page = some c₁ ∧
     (JobStore.get_job (JobStore.update_progress st jobId c₁ t₁ n₁) jobId).map
        JobRow.total_pages = some t₁ ∧
     (JobStore.get_job
        (JobStore.update_progress (JobStore.update_progress st jobId c₁ t₁ n₁) jobId c₂ t₂ n₂)
        jobId).map JobRow.current_page = some c₂ ∧
     (JobStore.get_job
        (JobStore.update_progress (JobStore.update_progress st jobId c₁ t₁ n₁) jobId c₂ t₂ n₂)
        jobId).map JobRow.total_pages = some t₂) ∧
    (∀ tp : Int, ∀ rp now : String, ∃ st₃,
      JobStore.update_status st jobId "completed"
          { error := none, result_path := some rp, current_page := some tp,
            total_pages := some tp, total_components := none } now = .ok st₃ ∧
      (JobStore.get_job st₃ jobId).map JobRow.current_page = some tp ∧
      (JobStore.get_job st₃ jobId).map JobRow.total_pages = some tp) ∧
    (c₁ ≤ c₂ → t₁ ≤ t₂ →
      ∃ r₁ r₂,
        JobStore.get_job (JobStore.update_progress st jobId c₁ t₁ n₁) jobId = some r₁ ∧
        JobStore.get_job
          (JobStore.update_progress (JobStore.update_progress st jobId c₁ t₁ n₁) jobId c₂ t₂ n₂)
          jobId = some r₂ ∧
        r₁.current_page ≤ r₂.current_page ∧ r₁.total_pages ≤ r₂.total_pages) := by
  have h₁ := JobStore.get_job_update_progress st jobId c₁ t₁ n₁ r hr
  have h₂ := JobStore.get_job_update_progress
    (JobStore.update_progress st jobId c₁ t₁ n₁) jobId c₂ t₂ n₂ _ h₁
  refine ⟨⟨?_, ?_, ?_, ?_⟩, ?_, ?_⟩
  · rw [h₁]; rfl
  · rw [h₁]; rfl
  · rw [h₂]; rfl
  · rw [h₂]; rfl
  · intro tp rp now
    have hmem : "completed" ∈ JobStore.VALID_STATUSES := by decide
    refine ⟨_, JobStore.update_status_ok st jobId "completed" _ now hmem, ?_, ?_⟩ <;>
      · rw [JobStore.get_job_applyExtra, hr]; rfl
  · intro hc ht
    exact ⟨_, _, h₁, h₂, hc, ht⟩

/-- C4 witness: the amended theorem applied to the demo store with the
non-decreasing write sequence (3,8) then (4,9). -/
theorem claim_c4_progress_writes_witness :
    (JobStore.get_job (JobStore.update_progress demoStore "j1" 3 8 "t1") "j1").map
        JobRow.current_page = some 3 ∧
    (JobStore.get_job
        (JobStore.update_progress (JobStore.update_progress demoStore "j1" 3 8 "t1") "j1" 4 9 "t2")
        "j1").map JobRow.current_page = some 4 :=
  ⟨(claim_c4_progress_writes demoStore "j1" 3 8 4 9 "t1" "t2" demoRow rfl).1.1,
   (claim_c4_progress_writes demoStore "j1" 3 8 4 9 "t1" "t2" demoRow rfl).1.2.2.1⟩

theorem RawTable.lookup_cons_self (a : String) (v : SqlValue)
    (l : List (String × SqlValue)) : ((a, v) :: l).lookup a = some v := by
  simp [List.lookup]

theorem RawTable.lookup_cons_ne (k a : String) (v : SqlValue)
    (l : List (String × SqlValue)) (h : k ≠ a) :
    ((a, v) :: l).lookup k = l.lookup k := by
  have hb : (k == a) = false := by
    simp only [beq_eq_false_iff_ne, ne_eq]
    exact h
  simp [List.lookup, hb]

theorem RawTable.lookup_append_of_not_mem (k : String)
    (l₁ l₂ : List (String × SqlValue)) (h : k ∉ l₁.map Prod.fst) :
    (l₁ ++ l₂).lookup k = l₂.lookup k := by
  induction l₁ with
  | nil => rfl
  | cons e tl ih =>
    obtain ⟨a, b⟩ := e
    simp only [List.map_cons, List.mem_cons, not_or] at h
    rw [List.cons_append, RawTable.lookup_cons_ne _ _ _ _ h.1]
    exact ih h.2

theorem RawTable.lookup_append_of_eq_some (k : String)
    (l₁ l₂ : List (String × SqlValue)) (v : SqlValue)
    (h : l₁.lookup k = some v) : (l₁ ++ l₂).lookup k = some v := by
  induction l₁ with
  | nil => simp [List.lookup] at h
  | cons e tl ih =>
    obtain ⟨a, b⟩ := e
    by_cases hk : k = a
    · subst hk
      rw [RawTable.lookup_cons_self] at h
      rw [List.cons_append, RawTable.lookup_cons_self]
      exact h
    · rw [RawTable.lookup_cons_ne _ _ _ _ hk] at h
      rw [List.cons_append, RawTable.lookup_cons_ne _ _ _ _ hk]
      exact ih h

theorem RawTable.keys_setCol (row : List (String × SqlValue))
    (kv : String × SqlValue) :
    (RawTable.setCol row kv).map Prod.fst = row.map Prod.fst := by
  induction row with
  | nil => rfl
  | cons e tl ih =>
    obtain ⟨a, b⟩ := e
    simp only [RawTable.setCol, List.map_cons] at *
    by_cases h : a = kv.1
    · rw [if_pos h]; simp [ih, h]
    · rw [if_neg h]; simp [ih]

theorem RawTable.lookup_setCol_self (row : List (String × SqlValue))
    (k : String) (v : SqlValue) (h : k ∈ row.map Prod.fst) :
    (RawTable.setCol row (k, v)).lookup k = some v := by
  induction row with
  | nil => simp at h
  | cons e tl ih =>
    obtain ⟨a, b⟩ := e
    simp only [List.map_cons, List.mem_cons] at h
    simp only [RawTable.setCol, List.map_cons]
    by_cases he : a = k
    · rw [if_pos he]
      subst he
      exact RawTable.lookup_cons_self _ _ _
    · rw [if_neg he]
      rw [RawTable.lookup_cons_ne _ _ _ _ (fun hh => he hh.symm)]
      rcases h with h | h
      · exact absurd h.symm he
      · rw [show List.map (fun e => if e.1 = k then (e.1, v) else e) tl
              = RawTable.setCol tl (k, v) from rfl]
        exact ih h

theorem RawTable.lookup_setCol_ne (row : List (String × SqlValue))
    (k : String) (kv : String × SqlValue) (h : k ≠ kv.1) :
    (RawTable.setCol row kv).lookup k = row.lookup k := by
  induction row with
  | nil => rfl
  | cons e tl ih =>
    obtain ⟨a, b⟩ := e
    simp only [RawTable.setCol, List.map_cons]
    have htl : List.map (fun e => if e.1 = kv.1 then (e.1, kv.2) else e) tl
        = RawTable.setCol tl kv := rfl
    by_cases he : a = kv.1
    · rw [if_pos he]
      rw [RawTable.lookup_cons_ne _ _ _ _ (fun hh => h (hh.trans he)),
          RawTable.lookup_cons_ne _ _ _ _ (fun hh => h (hh.trans he)), htl]
      exact ih
    · rw [if_neg he]
      by_cases hk : k = a
      · subst hk
        rw [RawTable.lookup_cons_self, RawTable.lookup_cons_self]
      · rw [RawTable.lookup_cons_ne _ _ _ _ hk, RawTable.lookup_cons_ne _ _ _ _ hk, htl]
        exact ih

theorem find?_map_comm {α : Type} (l : List α) (f : α → α) (p : α → Bool)
    (hf : ∀ a, p (f a) = p a) :
    (l.map f).find? p = (l.find? p).map f := by
  induction l with
  | nil => rfl
  | cons a tl ih =>
    simp only [List.map_cons]
    by_cases h : p a = true
    · rw [List.find?_cons_of_pos _ ((hf a).trans h), List.find?_cons_of_pos _ h]
      rfl
    · rw [List.find?_cons_of_neg _ (by rw [hf a]; simpa using h),
          List.find?_cons_of_neg _ (by simpa using h)]
      exact ih

theorem RawTable.lookup_append_single_ne (k c : String) (v : SqlValue)
    (l : List (String × SqlValue)) (h : k ≠ c) :
    (l ++ [(c, v)]).lookup k = l.lookup k := by
  induction l with
  | nil =>
    rw [List.nil_append, RawTable.lookup_cons_ne _ _ _ _ h]
  | cons e tl ih =>
    obtain ⟨a, b⟩ := e
    by_cases hk : k = a
    · subst hk
      rw [List.cons_append, RawTable.lookup_cons_self, RawTable.lookup_cons_self]
    · rw [List.cons_append, RawTable.lookup_cons_ne _ _ _ _ hk,
          RawTable.lookup_cons_ne _ _ _ _ hk]
      exact ih

theorem RawTable.raw_update_status_ok (t : RawTable) (jobId status : String)
    (kwargs : List (String × SqlValue)) (now : String)
    (hv : status ∈ JobStore.VALID_STATUSES)
    (hcols : ∀ kv ∈ [("status", SqlValue.text status),
        ("updated_at", SqlValue.text now)] ++ kwargs, kv.1 ∈ t.columns) :
    RawTable.update_status t jobId status kwargs now = .ok
      { t with rows := t.rows.map fun row =>
          if row.lookup "id" = some (SqlValue.text jobId) then
            ([("status", SqlValue.text status),
              ("updated_at", SqlValue.text now)] ++ kwargs).foldl RawTable.setCol row
          else row } := by
  unfold RawTable.update_status
  rw [if_pos hv,
      if_pos (List.all_eq_true.mpr fun kv hkv => decide_eq_true (hcols kv hkv))]

theorem RawTable.migrate_roundtrip_aux
    (t u : RawTable) (F : List (String × SqlValue) → List (String × SqlValue))
    (hurows : u.rows = t.rows.map F)
    (hFid : ∀ row, (F row).lookup "id" = row.lookup "id")
    (hFkeys : ∀ row ∈ t.rows,
      "total_components" ∈ (F row).map Prod.fst ∧ "status" ∈ (F row).map Prod.fst)
    (hc1 : "status" ∈ u.columns) (hc2 : "updated_at" ∈ u.columns)
    (hc3 : "total_components" ∈ u.columns) (jobId now : String) :
    ∃ t', RawTable.update_status u jobId "completed"
        [("total_components", SqlValue.int 42)] now = .ok t' ∧
      ∀ row₀, RawTable.get_job t jobId = some row₀ →
        ∃ row', RawTable.get_job t' jobId = some row' ∧
          row'.lookup "total_components" = some (SqlValue.int 42) ∧
          row'.lookup "status" = some (SqlValue.text "completed") := by
  have hvalid : "completed" ∈ JobStore.VALID_STATUSES := by decide
  refine ⟨_, RawTable.raw_update_status_ok _ _ _ _ _ hvalid ?_, ?_⟩
  · intro kv hkv
    simp only [List.cons_append, List.nil_append, List.mem_cons,
      List.not_mem_nil, or_false] at hkv
    rcases hkv with rfl | rfl | rfl
    · exact hc1
    · exact hc2
    · exact hc3
  · intro row₀ hrow₀
    -- the sets list and per-row update function of the UPDATE statement
    have hid_tc : ("id" : String) ≠ "total_components" := by decide
    have hid_st : ("id" : String) ≠ "status" := by decide
    have hid_ua : ("id" : String) ≠ "updated_at" := by decide
    have hfold : ∀ row : List (String × SqlValue),
        (([("status", SqlValue.text "completed"), ("updated_at", SqlValue.text now)] ++
          [("total_components", SqlValue.int 42)]).foldl RawTable.setCol row).lookup "id"
          = row.lookup "id" := by
      intro row
      show (RawTable.setCol (RawTable.setCol (RawTable.setCol row
          ("status", SqlValue.text "completed")) ("updated_at", SqlValue.text now))
          ("total_components", SqlValue.int 42)).lookup "id" = row.lookup "id"
      rw [RawTable.lookup_setCol_ne _ _ _ hid_tc,
          RawTable.lookup_setCol_ne _ _ _ hid_ua,
          RawTable.lookup_setCol_ne _ _ _ hid_st]
    have hmem₀ : row₀ ∈ t.rows :=
      List.mem_of_find?_eq_some hrow₀
    have hprow₀ : row₀.lookup "id" = some (SqlValue.text jobId) := by
      have := List.find?_some hrow₀
      exact of_decide_eq_true this
    -- the predicate used by get_job
    have hgp : ∀ (rows : List (List (String × SqlValue)))
        (g : List (String × SqlValue) → List (String × SqlValue)),
        (∀ row, (g row).lookup "id" = row.lookup "id") →
        (rows.map g).find? (fun row => row.lookup "id" = some (SqlValue.text jobId))
          = (rows.find? (fun row => row.lookup "id" = some (SqlValue.text jobId))).map g := by
      intro rows g hg
      exact find?_map_comm rows g _ (fun row => by rw [hg row])
    -- compute get_job on the updated table
    unfold RawTable.get_job
    rw [hurows]
    rw [List.map_map]
    rw [hgp _ _ (fun row => by
      dsimp only [Function.comp]
      by_cases hcase : (F row).lookup "id" = some (SqlValue.text jobId)
      · rw [if_pos hcase, hfold, hFid]
      · rw [if_neg hcase, hFid])]
    unfold RawTable.get_job at hrow₀
    rw [hrow₀]
    rw [Option.map_some']
    simp only [Function.comp]
    have hcond : (F row₀).lookup "id" = some (SqlValue.text jobId) := by
      rw [hFid]; exact hprow₀
    rw [if_pos hcond]
    refine ⟨_, rfl, ?_, ?_⟩
    · show (RawTable.setCol (RawTable.setCol (RawTable.setCol _
          ("status", SqlValue.text "completed")) ("updated_at", SqlValue.text now))
          ("total_components", SqlValue.int 42)).lookup "total_components"
          = some (SqlValue.int 42)
      apply RawTable.lookup_setCol_self
      rw [RawTable.keys_setCol, RawTable.keys_setCol]
      exact (hFkeys row₀ hmem₀).1
    · show (RawTable.setCol (RawTable.setCol (RawTable.setCol _
          ("status", SqlValue.text "completed")) ("updated_at", SqlValue.text now))
          ("total_components", SqlValue.int 42)).lookup "status"
          = some (SqlValue.text "completed")
      rw [RawTable.lookup_setCol_ne _ _ _
            (show ("status" : String) ≠ "total_components" from by decide),
          RawTable.lookup_setCol_ne _ _ _
            (show ("status" : String) ≠ "updated_at" from by decide)]
      apply RawTable.lookup_setCol_self
      exact (hFkeys row₀ hmem₀).2

/-- C3: opening the job store against a pre-existing jobs table that
lacks the `total_components` and/or `user_id` columns succeeds
whichever of the two columns (one or both) is missing: the column set
is inspected explicitly and every missing column is added, existing
rows read the defaults 0 (when `total_components` was missing) and
NULL (when `user_id` was missing) for the added columns, and a later
completion writing `total_components = 42` round-trips exactly on
read. -/
theorem claim_c3_schema_migration
    (t : RawTable) (hwf : RawTable.Wf t)
    (hst : "status" ∈ t.columns) (hua : "updated_at" ∈ t.columns) :
    ("total_components" ∈ (RawTable.migrate t).columns ∧
     "user_id" ∈ (RawTable.migrate t).columns) ∧
    (∀ row ∈ (RawTable.migrate t).rows,
        ("total_components" ∉ t.columns →
          row.lookup "total_components" = some (SqlValue.int 0)) ∧
        ("user_id" ∉ t.columns →
          row.lookup "user_id" = some SqlValue.null)) ∧
    (∀ jobId now : String, ∃ t',
        RawTable.update_status (RawTable.migrate t) jobId "completed"
            [("total_components", SqlValue.int 42)] now = .ok t' ∧
        ∀ row₀, RawTable.get_job t jobId = some row₀ →
          ∃ row', RawTable.get_job t' jobId = some row' ∧
            row'.lookup "total_components" = some (SqlValue.int 42) ∧
            row'.lookup "status" = some (SqlValue.text "completed")) := by
  by_cases htc : "total_components" ∈ t.columns <;>
    by_cases huid : "user_id" ∈ t.columns
  -- both columns already present: the migration leaves the table unchanged
  · have hmig : RawTable.migrate t = t := by
      unfold RawTable.migrate
      simp only [if_pos htc, if_pos huid]
    refine ⟨⟨?_, ?_⟩, ?_, ?_⟩
    · rw [hmig]; exact htc
    · rw [hmig]; exact huid
    · intro row hrow
      exact ⟨fun h => absurd htc h, fun h => absurd huid h⟩
    · intro jobId now
      refine RawTable.migrate_roundtrip_aux t (RawTable.migrate t)
        (fun row => row) ?_ ?_ ?_ ?_ ?_ ?_ jobId now
      · rw [hmig]; simp
      · intro row; rfl
      · intro row hrow
        have hkeys : row.map Prod.fst = t.columns := hwf row hrow
        rw [hkeys]
        exact ⟨htc, hst⟩
      · rw [hmig]; exact hst
      · rw [hmig]; exact hua
      · rw [hmig]; exact htc
  -- only user_id missing
  · have hcols : (RawTable.migrate t).columns = t.columns ++ ["user_id"] := by
      unfold RawTable.migrate RawTable.addColumn
      simp only [if_pos htc, if_neg huid]
    have hrows : (RawTable.migrate t).rows
        = t.rows.map (· ++ [("user_id", SqlValue.null)]) := by
      unfold RawTable.migrate RawTable.addColumn
      simp only [if_pos htc, if_neg huid]
    refine ⟨⟨?_, ?_⟩, ?_, ?_⟩
    · rw [hcols]; exact List.mem_append_left _ htc
    · rw [hcols]; simp
    · intro row hrow
      rw [hrows] at hrow
      obtain ⟨row₀, hrow₀, rfl⟩ := List.mem_map.mp hrow
      have hkeys : row₀.map Prod.fst = t.columns := hwf row₀ hrow₀
      refine ⟨fun h => absurd htc h, fun _ => ?_⟩
      rw [RawTable.lookup_append_of_not_mem _ _ _ (by rw [hkeys]; exact huid)]
      rfl
    · intro jobId now
      refine RawTable.migrate_roundtrip_aux t (RawTable.migrate t)
        (· ++ [("user_id", SqlValue.null)]) hrows ?_ ?_ ?_ ?_ ?_ jobId now
      · intro row
        exact RawTable.lookup_append_single_ne _ _ _ _ (by decide)
      · intro row hrow
        have hkeys : row.map Prod.fst = t.columns := hwf row hrow
        rw [List.map_append, hkeys]
        exact ⟨List.mem_append_left _ htc, List.mem_append_left _ hst⟩
      · rw [hcols]; exact List.mem_append_left _ hst
      · rw [hcols]; exact List.mem_append_left _ hua
      · rw [hcols]; exact List.mem_append_left _ htc
  -- only total_components missing (the user_id check reads the original
  -- PRAGMA snapshot, so it still sees the column as present)
  · have hcols : (RawTable.migrate t).columns
        = t.columns ++ ["total_components"] := by
      unfold RawTable.migrate RawTable.addColumn
      simp only [if_neg htc, if_pos huid]
    have hrows : (RawTable.migrate t).rows
        = t.rows.map (· ++ [("total_components", SqlValue.int 0)]) := by
      unfold RawTable.migrate RawTable.addColumn
      simp only [if_neg htc, if_pos huid]
    refine ⟨⟨?_, ?_⟩, ?_, ?_⟩
    · rw [hcols]; simp
    · rw [hcols]; exact List.mem_append_left _ huid
    · intro row hrow
      rw [hrows] at hrow
      obtain ⟨row₀, hrow₀, rfl⟩ := List.mem_map.mp hrow
      have hkeys : row₀.map Prod.fst = t.columns := hwf row₀ hrow₀
      refine ⟨fun _ => ?_, fun h => absurd huid h⟩
      rw [RawTable.lookup_append_of_not_mem _ _ _ (by rw [hkeys]; exact htc)]
      rfl
    · intro jobId now
      refine RawTable.migrate_roundtrip_aux t (RawTable.migrate t)
        (· ++ [("total_components", SqlValue.int 0)]) hrows ?_ ?_ ?_ ?_ ?_ jobId now
      · intro row
        exact RawTable.lookup_append_single_ne _ _ _ _ (by decide)
      · intro row hrow
        have hkeys : row.map Prod.fst = t.columns := hwf row hrow
        rw [List.map_append, hkeys]
        exact ⟨by simp, List.mem_append_left _ hst⟩
      · rw [hcols]; exact List.mem_append_left _ hst
      · rw [hcols]; exact List.mem_append_left _ hua
      · rw [hcols]; simp
  -- both columns missing
  · have hcols : (RawTable.migrate t).columns
        = (t.columns ++ ["total_components"]) ++ ["user_id"] := by
      unfold RawTable.migrate RawTable.addColumn
      simp only [if_neg htc, if_neg huid]
    have hrows : (RawTable.migrate t).rows
        = (t.rows.map (· ++ [("total_components", SqlValue.int 0)])).map
            (· ++ [("user_id", SqlValue.null)]) := by
      unfold RawTable.migrate RawTable.addColumn
      simp only [if_neg htc, if_neg huid]
    refine ⟨⟨?_, ?_⟩, ?_, ?_⟩
    · rw [hcols]; simp
    · rw [hcols]; simp
    · intro row hrow
      rw [hrows] at hrow
      obtain ⟨row₁, hrow₁, rfl⟩ := List.mem_map.mp hrow
      obtain ⟨row₀, hrow₀, rfl⟩ := List.mem_map.mp hrow₁
      have hkeys : row₀.map Prod.fst = t.columns := hwf row₀ hrow₀
      constructor
      · intro _
        rw [List.append_assoc,
            RawTable.lookup_append_of_not_mem _ _ _ (by rw [hkeys]; exact htc)]
        rfl
      · intro _
        rw [List.append_assoc,
            RawTable.lookup_append_of_not_mem _ _ _ (by rw [hkeys]; exact huid)]
        rfl
    · intro jobId now
      refine RawTable.migrate_roundtrip_aux t (RawTable.migrate t)
        (fun row => (row ++ [("total_components", SqlValue.int 0)])
          ++ [("user_id", SqlValue.null)]) ?_ ?_ ?_ ?_ ?_ ?_ jobId now
      · rw [hrows, List.map_map]
        rfl
      · intro row
        rw [RawTable.lookup_append_single_ne _ _ _ _ (by decide),
            RawTable.lookup_append_single_ne _ _ _ _ (by decide)]
      · intro row hrow
        have hkeys : row.map Prod.fst = t.columns := hwf row hrow
        rw [List.map_append, List.map_append, hkeys]
        exact ⟨by simp, List.mem_append_left _ (List.mem_append_left _ hst)⟩
      · rw [hcols]
        exact List.mem_append_left _ (List.mem_append_left _ hst)
      · rw [hcols]
        exact List.mem_append_left _ (List.mem_append_left _ hua)
      · rw [hcols]; simp

/-- C3 witness: the migration theorem applied to a concrete one-row
table written by the old schema (both columns missing). -/
theorem claim_c3_schema_migration_witness :
    ("total_components" ∈ (RawTable.migrate demoOldTable).columns ∧
     "user_id" ∈ (RawTable.migrate demoOldTable).columns) ∧
    (∃ t', RawTable.update_status (RawTable.migrate demoOldTable) "j1" "completed"
        [("total_components", SqlValue.int 42)] "t9" = .ok t' ∧
      ∀ row₀, RawTable.get_job demoOldTable "j1" = some row₀ →
        ∃ row', RawTable.get_job t' "j1" = some row' ∧
          row'.lookup "total_components" = some (SqlValue.int 42) ∧
          row'.lookup "status" = some (SqlValue.text "completed")) := by
  have h := claim_c3_schema_migration demoOldTable
    (by unfold RawTable.Wf; decide) (by decide) (by decide)
  exact ⟨h.1, h.2.2 "j1" "t9"⟩

/-! String and path lemmas supporting the rename claims. -/

theorem String.data_append_eq (a b : String) : (a ++ b).data = a.data ++ b.data := by
  cases a; cases b; rfl

theorem String.data_ne_nil_of_ne_empty (s : String) (h : s ≠ "") : s.data ≠ [] := by
  intro hd
  apply h
  cases s
  simp at hd
  rw [hd]

theorem mem_of_getLast?_eq_some {α : Type} {l : List α} {a : α}
    (h : l.getLast? = some a) : a ∈ l := by
  have hx : a ∈ l.getLast? := Option.mem_def.mpr h
  obtain ⟨hne, rfl⟩ := List.mem_getLast?_eq_getLast hx
  exact List.getLast_mem hne

theorem splitOnChar_of_not_mem (sep : Char) (l : List Char) (h : sep ∉ l) :
    splitOnChar sep l = [l] := by
  induction l with
  | nil => rfl
  | cons c cs ih =>
    simp only [List.mem_cons, not_or] at h
    simp only [splitOnChar]
    rw [if_neg fun hc => h.1 hc.symm]
    rw [ih h.2]

theorem splitOnChar_parts_not_mem (sep : Char) (l : List Char) :
    ∀ p ∈ splitOnChar sep l, sep ∉ p := by
  induction l with
  | nil =>
    intro p hp
    simp only [splitOnChar, List.mem_singleton] at hp
    subst hp
    simp
  | cons c cs ih =>
    intro p hp
    simp only [splitOnChar] at hp
    by_cases hc : c = sep
    · rw [if_pos hc] at hp
      rcases List.mem_cons.mp hp with rfl | hp
      · simp
      · exact ih p hp
    · rw [if_neg hc] at hp
      cases hr : splitOnChar sep cs with
      | nil =>
        rw [hr] at hp
        simp only [List.mem_singleton] at hp
        subst hp
        simp only [List.mem_singleton]
        exact fun hs => hc hs.symm
      | cons hd tl =>
        rw [hr] at hp
        rcases List.mem_cons.mp hp with rfl | hp
        · intro hmem
          rcases List.mem_cons.mp hmem with hs | hs
          · exact hc hs.symm
          · exact ih hd (hr ▸ List.mem_cons_self hd tl) hs
        · exact ih p (hr ▸ List.mem_cons_of_mem hd hp)

theorem takeWhile_append_sentinel (p : Char → Bool) (l₁ l₂ : List Char) (x : Char)
    (h₁ : ∀ c ∈ l₁, p c = true) (hx : p x = false) :
    (l₁ ++ x :: l₂).takeWhile p = l₁ := by
  induction l₁ with
  | nil =>
    simp [List.takeWhile_cons, hx]
  | cons c cs ih =>
    rw [List.cons_append, List.takeWhile_cons, if_pos (h₁ c (List.mem_cons_self c cs))]
    rw [ih fun d hd => h₁ d (List.mem_cons_of_mem c hd)]

theorem pathlibName_eq (s : List Char) :
    pathlibName s
      = (((splitOnChar '/' s).filter fun p => p ≠ [] ∧ p ≠ ['.']).getLast?).getD [] :=
  rfl

theorem pathlibName_no_slash (s : List Char) : '/' ∉ pathlibName s := by
  rw [pathlibName_eq]
  cases hl : ((splitOnChar '/' s).filter fun p => p ≠ [] ∧ p ≠ ['.']).getLast? with
  | none => simp
  | some p =>
    simp only [Option.getD_some]
    exact fun hm =>
      splitOnChar_parts_not_mem '/' s p
        (List.mem_of_mem_filter (mem_of_getLast?_eq_some hl)) hm

theorem pathlibName_of_clean (l : List Char) (h : '/' ∉ l) (hne : l ≠ [])
    (hne2 : l ≠ ['.']) : pathlibName l = l := by
  rw [pathlibName_eq]
  rw [splitOnChar_of_not_mem _ _ h]
  rw [List.filter_cons, if_pos (by simp [hne, hne2])]
  rfl

theorem pySuffix_eq (s : List Char) :
    pySuffix s =
      if ((pathlibName s).reverse.takeWhile fun c => c ≠ '.').length < (pathlibName s).length ∧
          0 < ((pathlibName s).reverse.takeWhile fun c => c ≠ '.').length ∧
          ((pathlibName s).reverse.takeWhile fun c => c ≠ '.').length + 1 < (pathlibName s).length
      then '.' :: ((pathlibName s).reverse.takeWhile fun c => c ≠ '.').reverse
      else [] :=
  rfl

theorem pySuffixStr_eq (s : String) : pySuffixStr s = ⟨pySuffix s.data⟩ := rfl

theorem pySuffix_of_shape (pre ext : List Char)
    (hpre : pre ≠ []) (hslash : '/' ∉ pre) (hslashe : '/' ∉ ext)
    (hext : ext ≠ []) (hdot : '.' ∉ ext) :
    pySuffix (pre ++ '.' :: ext) = '.' :: ext := by
  have hname : pathlibName (pre ++ '.' :: ext) = pre ++ '.' :: ext := by
    apply pathlibName_of_clean
    · intro hm
      rcases List.mem_append.mp hm with hm | hm
      · exact hslash hm
      · rcases List.mem_cons.mp hm with hm | hm
        · exact absurd hm (by decide)
        · exact hslashe hm
    · simp
    · intro hq
      have hlq := congrArg List.length hq
      simp only [List.length_append, List.length_cons, List.length_nil] at hlq
      have hl1 : 0 < pre.length := List.length_pos.mpr hpre
      have hl2 : 0 < ext.length := List.length_pos.mpr hext
      omega
  have hpe : 0 < pre.length := List.length_pos.mpr hpre
  have hee : 0 < ext.length := List.length_pos.mpr hext
  rw [pySuffix_eq, hname]
  have hrev : (pre ++ '.' :: ext).reverse = ext.reverse ++ '.' :: pre.reverse := by
    rw [List.reverse_append, List.reverse_cons, List.append_assoc, List.singleton_append]
  rw [hrev]
  have hTW : (ext.reverse ++ '.' :: pre.reverse).takeWhile (fun c => c ≠ '.')
      = ext.reverse :=
    takeWhile_append_sentinel _ _ _ _
      (fun c hc => decide_eq_true fun heq => hdot (heq ▸ List.mem_reverse.mp hc))
      (by simp)
  rw [hTW]
  rw [if_pos]
  · simp
  · refine ⟨?_, ?_, ?_⟩ <;> simp <;> omega

theorem pySuffix_structure (s : List Char) :
    pySuffix s = [] ∨
      ∃ ext, pySuffix s = '.' :: ext ∧ ext ≠ [] ∧ '.' ∉ ext ∧ '/' ∉ ext := by
  rw [pySuffix_eq]
  split
  · next hcond =>
    right
    refine ⟨((pathlibName s).reverse.takeWhile fun c => c ≠ '.').reverse, rfl, ?_, ?_, ?_⟩
    · intro h0
      have h1 : ((pathlibName s).reverse.takeWhile fun c => c ≠ '.') = [] := by
        rw [← List.reverse_reverse ((pathlibName s).reverse.takeWhile fun c => c ≠ '.'), h0]
        rfl
      rw [h1] at hcond
      simp at hcond
    · intro hm
      have hm' := List.mem_reverse.mp hm
      have hp := List.mem_takeWhile_imp hm'
      simp at hp
    · intro hm
      have hm' := List.mem_reverse.mp hm
      have hmem : '/' ∈ (pathlibName s).reverse := List.takeWhile_subset _ hm'
      exact pathlibName_no_slash s (List.mem_reverse.mp hmem)
  · left
    rfl

theorem validate_base_name_ok (b cleaned : String)
    (h : validate_base_name b = .ok cleaned) :
    cleaned = pyStrip b ∧ cleaned ≠ "" ∧ cleaned.data.any invalidNameChar = false := by
  simp only [validate_base_name] at h
  split_ifs at h with h1 h2 h3
  simp only [Except.ok.injEq] at h
  refine ⟨h.symm, ?_, ?_⟩
  · rw [← h]
    exact h1
  · rw [← h]
    simpa using h3

/-- C10: every successful rename produces a title equal to the
validated (stripped) base name concatenated with the filename
extension (pathlib suffix) of the job's previous remote title; when
the previous title has a non-empty extension, the new title's
extension equals it, so the extension cannot be changed through the
rename endpoint. -/
theorem claim_c10_rename_preserves_extension
    (requester : Option String) (jobId base_name : String) (store : List JobRow)
    (cfg : Bool) (uj : UserJob) (remoteRename : Except String Unit) (now : String)
    (resp : RenameJobResponse) (store' : List JobRow)
    (h : rename_job_route requester jobId base_name store cfg (some uj) remoteRename now
         = (.ok resp, store')) :
    resp.title = pyStrip base_name ++ pySuffixStr uj.title ∧
    (pySuffixStr uj.title ≠ "" → pySuffixStr resp.title = pySuffixStr uj.title) := by
  have hmain : resp.title = pyStrip base_name ++ pySuffixStr uj.title ∧
      validate_base_name base_name = .ok (pyStrip base_name) := by
    cases requester with
    | none => simp [rename_job_route, Prod.ext_iff] at h
    | some uid =>
      cases cfg with
      | false => simp [rename_job_route, Prod.ext_iff] at h
      | true =>
        simp only [rename_job_route] at h
        rw [if_neg (by simp)] at h
        cases hv : validate_base_name base_name with
        | error e =>
          rw [hv] at h
          simp [Prod.ext_iff] at h
        | ok cleaned =>
          obtain ⟨hc, -, -⟩ := validate_base_name_ok base_name cleaned hv
          rw [hv, hc] at h
          dsimp only at h
          refine ⟨?_, by rw [hc]⟩
          by_cases heq : uj.title = pyStrip base_name ++ pySuffixStr uj.title
          · rw [if_pos heq] at h
            have hr : RenameJobResponse.mk jobId
                (pyStrip base_name ++ pySuffixStr uj.title) = resp :=
              Except.ok.inj (congrArg Prod.fst h)
            exact (congrArg RenameJobResponse.title hr).symm
          · rw [if_neg heq] at h
            cases remoteRename with
            | error e => simp [Prod.ext_iff] at h
            | ok u =>
              have hr : RenameJobResponse.mk jobId
                  (pyStrip base_name ++ pySuffixStr uj.title) = resp :=
                Except.ok.inj (congrArg Prod.fst h)
              exact (congrArg RenameJobResponse.title hr).symm
  refine ⟨hmain.1, ?_⟩
  intro hsuf
  rcases pySuffix_structure uj.title.data with h0 | ⟨ext, hext, hne, hdot, hsl⟩
  · exact absurd (by rw [pySuffixStr_eq, h0]) hsuf
  · obtain ⟨-, hnempty, hclean⟩ :=
      validate_base_name_ok base_name (pyStrip base_name) hmain.2
    have hpre : (pyStrip base_name).data ≠ [] :=
      String.data_ne_nil_of_ne_empty _ hnempty
    have hslash : '/' ∉ (pyStrip base_name).data := by
      intro hm
      have hfalse := (List.any_eq_false.mp hclean) '/' hm
      simp [invalidNameChar] at hfalse
    have hdata : resp.title.data = (pyStrip base_name).data ++ '.' :: ext := by
      rw [hmain.1, String.data_append_eq, pySuffixStr_eq, hext]
    rw [pySuffixStr_eq, hdata, pySuffix_of_shape _ _ hpre hslash hsl hne hdot,
        pySuffixStr_eq, hext]

/-- C10 witness: renaming the remote job titled slides.pdf with base
name " new-name " yields title new-name.pdf, preserving the .pdf
extension. -/
theorem claim_c10_rename_preserves_extension_witness :
    (RenameJobResponse.mk "j1" "new-name.pdf").title
        = pyStrip " new-name " ++ pySuffixStr demoUserJob.title ∧
    (pySuffixStr demoUserJob.title ≠ "" →
      pySuffixStr (RenameJobResponse.mk "j1" "new-name.pdf").title
        = pySuffixStr demoUserJob.title) :=
  claim_c10_rename_preserves_extension (some "alice") "j1" " new-name " [] true
    demoUserJob (.ok ()) "t1" (RenameJobResponse.mk "j1" "new-name.pdf") [] rfl

/-- C1: for an authenticated rename or delete of a non-guest job, the
remote operation is committed first.  A raised remote call surfaces as
502 with the local row, store and files untouched; a successful remote
call returns success and only then attempts the best-effort local
update/cleanup, succeeding whether or not a local row exists (the
local store's failure mode, a missing row, cannot fail the
operation). -/
theorem claim_c1_remote_write_first
    (uid jobId : String) (store : List JobRow) (fs : List String)
    (remoteJob : UserJob) (base_name now : String)
    (hguest : ∀ j, JobStore.get_job store jobId = some j → j.user_id ≠ none)
    (hneq : remoteJob.title ≠ pyStrip base_name ++ pySuffixStr remoteJob.title)
    (hvalid : validate_base_name base_name = .ok (pyStrip base_name)) :
    (∀ emsg, delete_job_route (some uid) jobId store fs true (some remoteJob) (.error emsg)
        = (.error { status_code := 502, detail := "Failed to delete job resources" },
           store, fs)) ∧
    (∀ n lj, JobStore.get_job store jobId = some lj →
      delete_job_route (some uid) jobId store fs true (some remoteJob) (.ok n)
        = (.ok (), (JobStore.delete_job store jobId).2,
           cleanup_job_files fs lj.upload_path lj.result_path)) ∧
    (∀ n, JobStore.get_job store jobId = none →
      delete_job_route (some uid) jobId store fs true (some remoteJob) (.ok n)
        = (.ok (), store, fs)) ∧
    (∀ emsg, rename_job_route (some uid) jobId base_name store true (some remoteJob)
          (.error emsg) now
        = (.error { status_code := 502, detail := "Failed to rename job" }, store)) ∧
    (∀ lj, JobStore.get_job store jobId = some lj → lj.user_id = some uid →
      rename_job_route (some uid) jobId base_name store true (some remoteJob) (.ok ()) now
        = (.ok { job_id := jobId,
                 title := pyStrip base_name ++ pySuffixStr remoteJob.title },
           (JobStore.rename_job store jobId
              (pyStrip base_name ++ pySuffixStr remoteJob.title) now).2)) ∧
    (∀ lj, JobStore.get_job store jobId = some lj → ¬ lj.user_id = some uid →
      rename_job_route (some uid) jobId base_name store true (some remoteJob) (.ok ()) now
        = (.ok { job_id := jobId,
                 title := pyStrip base_name ++ pySuffixStr remoteJob.title }, store)) ∧
    (JobStore.get_job store jobId = none →
      rename_job_route (some uid) jobId base_name store true (some remoteJob) (.ok ()) now
        = (.ok { job_id := jobId,
                 title := pyStrip base_name ++ pySuffixStr remoteJob.title }, store)) := by
  have hlj_guest : ∀ lj, JobStore.get_job store jobId = some lj →
      lj.user_id.isNone = false := by
    intro lj hlj
    cases hu : lj.user_id with
    | none => exact absurd hu (hguest lj hlj)
    | some v => rfl
  have hgb : ((JobStore.get_job store jobId).map fun j => j.user_id.isNone).getD false
      = false := by
    cases hlj : JobStore.get_job store jobId with
    | none => rfl
    | some lj =>
      simp only [Option.map_some', Option.getD_some]
      exact hlj_guest lj hlj
  refine ⟨?_, ?_, ?_, ?_, ?_, ?_, ?_⟩
  · intro emsg
    simp only [delete_job_route]
    rw [if_neg (by rw [hgb]; simp), if_neg (by simp)]
  · intro n lj hlj
    simp only [delete_job_route]
    rw [if_neg (by rw [hgb]; simp), if_neg (by simp), hlj]
  · intro n hlj
    simp only [delete_job_route]
    rw [if_neg (by rw [hgb]; simp), if_neg (by simp), hlj]
  · intro emsg
    simp only [rename_job_route]
    rw [if_neg (by simp), hvalid]
    dsimp only
    rw [if_neg hneq]
  · intro lj hlj hu
    simp only [rename_job_route]
    rw [if_neg (by simp), hvalid]
    dsimp only
    rw [if_neg hneq, hlj]
    dsimp only
    rw [if_pos hu]
  · intro lj hlj hu
    simp only [rename_job_route]
    rw [if_neg (by simp), hvalid]
    dsimp only
    rw [if_neg hneq, hlj]
    dsimp only
    rw [if_neg hu]
  · intro hlj
    simp only [rename_job_route]
    rw [if_neg (by simp), hvalid]
    dsimp only
    rw [if_neg hneq, hlj]

/-- C1 witness: with no local row cached, a raised remote delete or
rename surfaces as 502 and leaves the store and files untouched. -/
theorem claim_c1_remote_write_first_witness :
    delete_job_route (some "alice") "j1" [] ["./uploads/u1/a.pdf"] true (some demoUserJob)
        (.error "boom")
      = (.error { status_code := 502, detail := "Failed to delete job resources" },
         [], ["./uploads/u1/a.pdf"]) ∧
    rename_job_route (some "alice") "j1" " new-name " [] true (some demoUserJob)
        (.error "boom") "t1"
      = (.error { status_code := 502, detail := "Failed to rename job" }, []) :=
  have h := claim_c1_remote_write_first "alice" "j1" [] ["./uploads/u1/a.pdf"]
    demoUserJob " new-name " "t1" (fun _ hj => Option.noConfusion hj) (by decide) rfl
  ⟨h.1 "boom", h.2.2.2.1 "boom"⟩

/-- C5 counterexample: the rename endpoint reports a locally stored
guest job as 404 (remote-authoritative lookup misses it), not as a
distinct 403 rejection; only delete distinguishes guest jobs. -/
theorem claim_c5_counterexample :
    rename_job_route (some "alice") "g1" "new-name" guestStore true none (.ok ()) "t1"
      = (.error { status_code := 404, detail := "Job not found" }, guestStore) ∧
    (delete_job_route (some "alice") "g1" guestStore [] true none (.error "x")).1
      = .error { status_code := 403, detail := "Guest jobs cannot be deleted manually" } ∧
    (404 : Nat) ≠ 403 := by
  refine ⟨rfl, rfl, by decide⟩

/-- C5 (amended): an authenticated delete of a locally stored guest
job is rejected distinctly with 403, before any remote interaction;
an authenticated rename of a guest job is reported 404 through the
remote-authoritative lookup (guest jobs never exist remotely), not
403. -/
theorem claim_c5_guest_rejection
    (uid jobId : String) (store : List JobRow) (fs : List String) (g : JobRow)
    (hg : JobStore.get_job store jobId = some g) (hguest : g.user_id = none) :
    (∀ cfg remoteJob remoteDelete,
      delete_job_route (some uid) jobId store fs cfg remoteJob remoteDelete
        = (.error { status_code := 403, detail := "Guest jobs cannot be deleted manually" },
           store, fs)) ∧
    (∀ base_name remoteRename now,
      rename_job_route (some uid) jobId base_name store true none remoteRename now
        = (.error { status_code := 404, detail := "Job not found" }, store)) := by
  constructor
  · intro cfg remoteJob remoteDelete
    simp only [delete_job_route]
    rw [if_pos (by rw [hg]; simp [hguest])]
  · intro base_name remoteRename now
    simp only [rename_job_route]
    rw [if_neg (by simp)]

/-- C5 witness: the amended theorem applied to the demo guest store. -/
theorem claim_c5_guest_rejection_witness :
    delete_job_route (some "alice") "g1" guestStore [] true none (.ok 0)
      = (.error { status_code := 403, detail := "Guest jobs cannot be deleted manually" },
         guestStore, []) ∧
    rename_job_route (some "alice") "g1" "x" guestStore true none (.ok ()) "t1"
      = (.error { status_code := 404, detail := "Job not found" }, guestStore) :=
  have h := claim_c5_guest_rejection "alice" "g1" guestStore [] guestRow rfl rfl
  ⟨h.1 true none (.ok 0), h.2 "x" (.ok ()) "t1"⟩

/-- C2: when the pipeline raises for a job, `_process_job` removes the
job's output directory (no path at or under it survives), marks the
job failed with the exception message as its error field, and the
exception never escapes: processing returns normally and the loop
continues with the remaining queue. -/
theorem claim_c2_pipeline_failure_isolation
    (pipeline : Option String → Except String PipelineResult)
    (base now : String) (store : List JobRow) (fs : List String)
    (jobId : String) (job : JobRow) (msg : String)
    (hj : JobStore.get_job store jobId = some job)
    (hp : pipeline job.upload_path = .error msg) :
    ∃ store' fs',
      process_job pipeline base now store fs jobId = .ok (store', fs') ∧
      (∃ j', JobStore.get_job store' jobId = some j' ∧
        j'.status = "failed" ∧ j'.error = some msg) ∧
      (∀ p ∈ fs', ¬ (p = outputDirFor base jobId ∨
          (outputDirFor base jobId ++ "/").isPrefixOf p)) ∧
      (∀ rest, process_loop pipeline base now (jobId :: rest) (store, fs)
          = process_loop pipeline base now rest (store', fs')) := by
  have h1 := JobStore.update_status_ok store jobId "processing" JobStore.noExtra now
    (by decide)
  have h2 := JobStore.update_status_ok
    (JobStore.setRow store jobId fun r =>
      JobStore.applyExtra r "processing" JobStore.noExtra now)
    jobId "failed"
    { error := some msg, result_path := none, current_page := none,
      total_pages := none, total_components := none } now (by decide)
  have hmain : process_job pipeline base now store fs jobId
      = .ok (JobStore.setRow
               (JobStore.setRow store jobId fun r =>
                 JobStore.applyExtra r "processing" JobStore.noExtra now)
               jobId (fun r => JobStore.applyExtra r "failed"
                 { error := some msg, result_path := none, current_page := none,
                   total_pages := none, total_components := none } now),
             rmtree (fs.insert (outputDirFor base jobId)) (outputDirFor base jobId)) := by
    unfold process_job
    rw [hj]
    dsimp only
    rw [h1]
    dsimp only
    rw [hp]
    dsimp only
    rw [h2]
  refine ⟨_, _, hmain, ?_, ?_, ?_⟩
  · have hg : JobStore.get_job
        (JobStore.setRow
          (JobStore.setRow store jobId fun r =>
            JobStore.applyExtra r "processing" JobStore.noExtra now)
          jobId (fun r => JobStore.applyExtra r "failed"
            { error := some msg, result_path := none, current_page := none,
              total_pages := none, total_components := none } now)) jobId
        = some (JobStore.applyExtra
            (JobStore.applyExtra job "processing" JobStore.noExtra now) "failed"
            { error := some msg, result_path := none, current_page := none,
              total_pages := none, total_components := none } now) := by
      rw [JobStore.get_job_applyExtra, JobStore.get_job_applyExtra, hj]
      rfl
    exact ⟨_, hg, rfl, rfl⟩
  · intro p hp'
    have hmem := List.mem_filter.mp hp'
    exact of_decide_eq_true hmem.2
  · intro rest
    unfold process_loop
    rw [List.foldl_cons]
    congr 1
    show (match process_job pipeline base now store fs jobId with
          | .ok s' => s'
          | .error _ => (store, fs)) = _
    rw [hmain]

/-- C2 witness: a pipeline that always raises, applied to the demo
store's queued job. -/
theorem claim_c2_pipeline_failure_isolation_witness :
    ∃ store' fs',
      process_job (fun _ => .error "boom") "./job_data" "t1" demoStore [] "j1"
        = .ok (store', fs') ∧
      (∃ j', JobStore.get_job store' "j1" = some j' ∧
        j'.status = "failed" ∧ j'.error = some "boom") ∧
      (∀ p ∈ fs', ¬ (p = outputDirFor "./job_data" "j1" ∨
          (outputDirFor "./job_data" "j1" ++ "/").isPrefixOf p)) ∧
      (∀ rest, process_loop (fun _ => .error "boom") "./job_data" "t1"
            ("j1" :: rest) (demoStore, [])
          = process_loop (fun _ => .error "boom") "./job_data" "t1" rest (store', fs')) :=
  claim_c2_pipeline_failure_isolation (fun _ => .error "boom") "./job_data" "t1"
    demoStore [] "j1" demoRow "boom" rfl rfl

theorem collectFrom_eq_drop (comps : List ComponentOut) (limit : Nat)
    (hl : 0 < limit) :
    ∀ n offset, comps.length - offset ≤ n →
      collectFrom comps limit offset = comps.drop offset := by
  intro n
  induction n with
  | zero =>
    intro offset h
    unfold collectFrom
    rw [if_neg (by omega)]
    have hlen : comps.length ≤ offset := by omega
    simp [List.drop_eq_nil_of_le hlen]
  | succ n ih =>
    intro offset h
    unfold collectFrom
    by_cases hc : offset + limit < comps.length
    · rw [if_pos hc, if_pos hl]
      rw [ih (offset + limit) (by omega)]
      have hdd : comps.drop (offset + limit) = (comps.drop offset).drop limit := by
        rw [List.drop_drop, Nat.add_comm]
      rw [hdd, List.take_append_drop]
    · rw [if_neg hc]
      apply List.take_of_length_le
      rw [List.length_drop]
      omega

/-- C7: for a completed job the components endpoint returns exactly the
slice [offset, offset+limit) of the stable page-order flattening, with
has_more = offset+limit < total; an offset at or past total yields an
empty batch with has_more = false; and the client loop that advances
offset by limit while has_more holds reproduces the full flattened
component list exactly once. -/
theorem claim_c7_components_pagination
    (store : List JobRow) (jobId : String) (offset limit : Nat)
    (apiUrl : String) (resultData : ResultData) (job : JobRow) (rp : String)
    (hj : JobStore.get_job store jobId = some job)
    (hcomp : job.status = "completed")
    (hrp : job.result_path = some rp) (hl : 0 < limit) :
    ∃ resp, get_result_components store jobId offset limit apiUrl true resultData
        = .ok resp ∧
      resp.components
        = ((flatten_components job.user_id.isNone apiUrl jobId
              resultData.pages).drop offset).take limit ∧
      resp.total = (flatten_components job.user_id.isNone apiUrl jobId
              resultData.pages).length ∧
      (∀ i, i < limit → resp.components[i]?
          = (flatten_components job.user_id.isNone apiUrl jobId
              resultData.pages)[offset + i]?) ∧
      resp.has_more = decide (offset + limit < resp.total) ∧
      (resp.total ≤ offset → resp.components = [] ∧ resp.has_more = false) ∧
      collectFrom (flatten_components job.user_id.isNone apiUrl jobId
          resultData.pages) limit 0
        = flatten_components job.user_id.isNone apiUrl jobId resultData.pages := by
  have hroute : get_result_components store jobId offset limit apiUrl true resultData
      = .ok { offset := offset, limit := limit,
              total := (flatten_components job.user_id.isNone apiUrl jobId
                resultData.pages).length,
              has_more := decide (offset + limit <
                (flatten_components job.user_id.isNone apiUrl jobId
                  resultData.pages).length),
              components := ((flatten_components job.user_id.isNone apiUrl jobId
                resultData.pages).drop offset).take limit } := by
    unfold get_result_components
    rw [hj]
    dsimp only
    rw [if_neg (by simp [hcomp]), hrp]
    dsimp only
    rw [if_neg (by simp)]
  refine ⟨_, hroute, rfl, rfl, ?_, rfl, ?_, ?_⟩
  · intro i hi
    show (((flatten_components job.user_id.isNone apiUrl jobId
        resultData.pages).drop offset).take limit)[i]? = _
    rw [List.getElem?_take_of_lt hi, List.getElem?_drop]
  · intro hoff
    dsimp only at hoff
    have hnil : (flatten_components job.user_id.isNone apiUrl jobId
        resultData.pages).drop offset = [] :=
      List.drop_eq_nil_of_le hoff
    constructor
    · show ((flatten_components job.user_id.isNone apiUrl jobId
          resultData.pages).drop offset).take limit = []
      rw [hnil, List.take_nil]
    · show decide _ = false
      apply decide_eq_false
      omega
  · exact collectFrom_eq_drop _ limit hl
      (flatten_components job.user_id.isNone apiUrl jobId resultData.pages).length 0
      (by omega) |>.trans (List.drop_zero _)

/-- C7 witness: the pagination theorem applied to the demo completed
job with three components, offset 1 and limit 2. -/
theorem claim_c7_components_pagination_witness :
    ∃ resp, get_result_components completedStore "c1" 1 2 "http://api" true
        demoResultData = .ok resp ∧
      resp.components
        = ((flatten_components completedRow.user_id.isNone "http://api" "c1"
              demoResultData.pages).drop 1).take 2 ∧
      resp.total = (flatten_components completedRow.user_id.isNone "http://api" "c1"
              demoResultData.pages).length ∧
      (∀ i, i < 2 → resp.components[i]?
          = (flatten_components completedRow.user_id.isNone "http://api" "c1"
              demoResultData.pages)[1 + i]?) ∧
      resp.has_more = decide (1 + 2 < resp.total) ∧
      (resp.total ≤ 1 → resp.components = [] ∧ resp.has_more = false) ∧
      collectFrom (flatten_components completedRow.user_id.isNone "http://api" "c1"
          demoResultData.pages) 2 0
        = flatten_components completedRow.user_id.isNone "http://api" "c1"
            demoResultData.pages :=
  claim_c7_components_pagination completedStore "c1" 1 2 "http://api" demoResultData
    completedRow "./job_data/c1/a_extracted.json" rfl rfl rfl (by decide)

theorem upload_one_ok0 (ok : Nat → Bool) (err : Nat → String)
    (h0 : ok 0 = true) : upload_one ok err = .ok (1, []) := by
  unfold upload_one UPLOAD_MAX_RETRIES upload_attempts
  rw [if_pos (by omega), if_pos h0]

theorem upload_one_ok1 (ok : Nat → Bool) (err : Nat → String)
    (h0 : ok 0 = false) (h1 : ok 1 = true) :
    upload_one ok err = .ok (2, [1]) := by
  unfold upload_one UPLOAD_MAX_RETRIES upload_attempts
  rw [if_pos (by omega), if_neg (by simp [h0]), if_neg (by omega)]
  unfold upload_attempts
  rw [if_pos (by omega), if_pos h1]
  rfl

theorem upload_one_ok2 (ok : Nat → Bool) (err : Nat → String)
    (h0 : ok 0 = false) (h1 : ok 1 = false) (h2 : ok 2 = true) :
    upload_one ok err = .ok (3, [1, 2]) := by
  unfold upload_one UPLOAD_MAX_RETRIES upload_attempts
  rw [if_pos (by omega), if_neg (by simp [h0]), if_neg (by omega)]
  unfold upload_attempts
  rw [if_pos (by omega), if_neg (by simp [h1]), if_neg (by omega)]
  unfold upload_attempts
  rw [if_pos (by omega), if_pos h2]
  rfl

theorem upload_one_exhausted (ok : Nat → Bool) (err : Nat → String)
    (h0 : ok 0 = false) (h1 : ok 1 = false) (h2 : ok 2 = false) :
    upload_one ok err = .error (err 2) := by
  unfold upload_one UPLOAD_MAX_RETRIES upload_attempts
  rw [if_pos (by omega), if_neg (by simp [h0]), if_neg (by omega)]
  unfold upload_attempts
  rw [if_pos (by omega), if_neg (by simp [h1]), if_neg (by omega)]
  unfold upload_attempts
  rw [if_pos (by omega), if_neg (by simp [h2]), if_pos (by omega)]

theorem upload_one_succeeds_within (ok : Nat → Bool) (err : Nat → String)
    (h : ∃ k, k < 3 ∧ ok k = true) :
    ∃ tr, upload_one ok err = .ok tr := by
  obtain ⟨k, hk, hok⟩ := h
  cases h0 : ok 0 with
  | true => exact ⟨_, upload_one_ok0 ok err h0⟩
  | false =>
    cases h1 : ok 1 with
    | true => exact ⟨_, upload_one_ok1 ok err h0 h1⟩
    | false =>
      cases h2 : ok 2 with
      | true => exact ⟨_, upload_one_ok2 ok err h0 h1 h2⟩
      | false =>
        interval_cases k
        · rw [h0] at hok; cases hok
        · rw [h1] at hok; cases hok
        · rw [h2] at hok; cases hok

theorem run_uploads_ok (ok : String → Nat → Bool) (err : String → Nat → String)
    (ts : List UploadTask)
    (h : ∀ t ∈ ts, ∃ k, k < 3 ∧ ok t.path k = true) :
    ∃ trs, run_uploads ok err ts = .ok trs := by
  induction ts with
  | nil => exact ⟨[], rfl⟩
  | cons t ts ih =>
    obtain ⟨tr, htr⟩ :=
      upload_one_succeeds_within (ok t.path) (err t.path) (h t (List.mem_cons_self t ts))
    obtain ⟨trs, htrs⟩ := ih fun t' ht' => h t' (List.mem_cons_of_mem t ht')
    refine ⟨tr :: trs, ?_⟩
    unfold run_uploads
    rw [htr, htrs]

theorem upload_one_error_inv (ok : Nat → Bool) (err : Nat → String) (e : String)
    (h : upload_one ok err = .error e) :
    ok 0 = false ∧ ok 1 = false ∧ ok 2 = false ∧ e = err 2 := by
  cases h0 : ok 0 with
  | true => rw [upload_one_ok0 ok err h0] at h; cases h
  | false =>
    cases h1 : ok 1 with
    | true => rw [upload_one_ok1 ok err h0 h1] at h; cases h
    | false =>
      cases h2 : ok 2 with
      | true => rw [upload_one_ok2 ok err h0 h1 h2] at h; cases h
      | false =>
        rw [upload_one_exhausted ok err h0 h1 h2] at h
        cases h
        exact ⟨rfl, rfl, rfl, rfl⟩

theorem run_uploads_abort (ok : String → Nat → Bool) (err : String → Nat → String)
    (ts : List UploadTask) (t : UploadTask) (hmem : t ∈ ts)
    (hfail : ∀ k, k < 3 → ok t.path k = false) :
    ∃ t', t' ∈ ts ∧ (∀ k, k < 3 → ok t'.path k = false) ∧
      run_uploads ok err ts = .error (err t'.path 2) := by
  induction ts with
  | nil => cases hmem
  | cons a tl ih =>
    cases hone : upload_one (ok a.path) (err a.path) with
    | error e =>
      obtain ⟨h0, h1, h2, rfl⟩ := upload_one_error_inv _ _ _ hone
      refine ⟨a, List.mem_cons_self a tl, ?_, ?_⟩
      · intro k hk
        interval_cases k
        · exact h0
        · exact h1
        · exact h2
      · unfold run_uploads
        rw [hone]
    | ok tr =>
      rcases List.mem_cons.mp hmem with rfl | hmem'
      · rw [upload_one_exhausted _ _ (hfail 0 (by omega)) (hfail 1 (by omega))
              (hfail 2 (by omega))] at hone
        cases hone
      · obtain ⟨t', ht'mem, ht'fail, ht'run⟩ := ih hmem'
        refine ⟨t', List.mem_cons_of_mem a ht'mem, ht'fail, ?_⟩
        unfold run_uploads
        rw [hone, ht'run]

/-- C8: each upload is attempted at most 3 times with exponential
backoff (1 second, doubling); an upload that fails twice then succeeds
uses 3 attempts with waits [1, 2] and contributes to an overall batch
success; an upload that fails on all 3 attempts propagates the raised
error of its final attempt out of the pipeline call, aborting the
batch. -/
theorem claim_c8_upload_retry :
    (∀ ok err n ws, upload_one ok err = .ok (n, ws) →
      n ≤ 3 ∧ ws = (List.range (n - 1)).map backoffWait) ∧
    (backoffWait 0 = 1 ∧ ∀ k, backoffWait (k + 1) = 2 * backoffWait k) ∧
    (∀ ok err, ok 0 = false → ok 1 = false → ok 2 = true →
      upload_one ok err = .ok (3, [1, 2])) ∧
    (∀ ok err, ok 0 = false → ok 1 = false → ok 2 = false →
      upload_one ok err = .error (err 2)) ∧
    (∀ userId jobId url pages ok err,
      (∀ t ∈ (upload_components_plan userId jobId url pages).2,
        ∃ k, k < 3 ∧ ok t.path k = true) →
      upload_components_to_supabase userId jobId url pages ok err
        = .ok (upload_components_plan userId jobId url pages).1) ∧
    (∀ userId jobId url pages ok err t ts,
      (upload_components_plan userId jobId url pages).2 = t :: ts →
      ok t.path 0 = false → ok t.path 1 = false → ok t.path 2 = false →
      upload_components_to_supabase userId jobId url pages ok err
        = .error (err t.path 2)) ∧
    (∀ userId jobId url pages ok err t,
      t ∈ (upload_components_plan userId jobId url pages).2 →
      (∀ k, k < 3 → ok t.path k = false) →
      ∃ t', t' ∈ (upload_components_plan userId jobId url pages).2 ∧
        (∀ k, k < 3 → ok t'.path k = false) ∧
        upload_components_to_supabase userId jobId url pages ok err
          = .error (err t'.path 2)) := by
  refine ⟨?_, ⟨rfl, ?_⟩, upload_one_ok2, upload_one_exhausted, ?_, ?_, ?_⟩
  · intro ok err n ws h
    cases h0 : ok 0 with
    | true =>
      rw [upload_one_ok0 ok err h0] at h
      obtain ⟨rfl, rfl⟩ : 1 = n ∧ [] = ws := by
        simpa [Prod.ext_iff] using h
      exact ⟨by omega, rfl⟩
    | false =>
      cases h1 : ok 1 with
      | true =>
        rw [upload_one_ok1 ok err h0 h1] at h
        obtain ⟨rfl, rfl⟩ : 2 = n ∧ [1] = ws := by
          simpa [Prod.ext_iff] using h
        exact ⟨by omega, rfl⟩
      | false =>
        cases h2 : ok 2 with
        | true =>
          rw [upload_one_ok2 ok err h0 h1 h2] at h
          obtain ⟨rfl, rfl⟩ : 3 = n ∧ [1, 2] = ws := by
            simpa [Prod.ext_iff] using h
          exact ⟨by omega, rfl⟩
        | false =>
          rw [upload_one_exhausted ok err h0 h1 h2] at h
          cases h
  · intro k
    show UPLOAD_RETRY_BACKOFF * 2 ^ (k + 1) = 2 * (UPLOAD_RETRY_BACKOFF * 2 ^ k)
    ring
  · intro userId jobId url pages ok err h
    obtain ⟨trs, htrs⟩ := run_uploads_ok ok err _ h
    unfold upload_components_to_supabase
    rw [htrs]
  · intro userId jobId url pages ok err t ts hplan h0 h1 h2
    unfold upload_components_to_supabase
    rw [hplan]
    unfold run_uploads
    rw [upload_one_exhausted (ok t.path) (err t.path) h0 h1 h2]
  · intro userId jobId url pages ok err t hmem hfail
    obtain ⟨t', ht'mem, ht'fail, ht'run⟩ := run_uploads_abort ok err _ t hmem hfail
    refine ⟨t', ht'mem, ht'fail, ?_⟩
    unfold upload_components_to_supabase
    rw [ht'run]

/-- C8 witness: concrete oracles exercising the retry bound, the
fail-fail-succeed trace, the batch success, the batch abort when the
first upload exhausts its retries, and the batch abort when only the
second upload of the demo plan exhausts its retries. -/
theorem claim_c8_upload_retry_witness :
    upload_one (fun k => k == 2) (fun k => "err" ++ toString k) = .ok (3, [1, 2]) ∧
    upload_one (fun _ => false) (fun k => "err" ++ toString k)
      = .error ("err" ++ toString 2) ∧
    upload_components_to_supabase "u" "j" "http://sb" demoResultData.pages
        (fun _ _ => true) (fun _ _ => "e")
      = .ok (upload_components_plan "u" "j" "http://sb" demoResultData.pages).1 ∧
    upload_components_to_supabase "u" "j" "http://sb" demoResultData.pages
        (fun _ _ => false) (fun p k => p ++ ":" ++ toString k)
      = .error ("u/j/0.png" ++ ":" ++ toString 2) ∧
    (∃ t', t' ∈ (upload_components_plan "u" "j" "http://sb" demoResultData.pages).2 ∧
      (∀ k, k < 3 → (t'.path == "u/j/0.png") = false) ∧
      upload_components_to_supabase "u" "j" "http://sb" demoResultData.pages
          (fun p _ => p == "u/j/0.png") (fun p k => p ++ ":" ++ toString k)
        = .error (t'.path ++ ":" ++ toString 2)) :=
  have h := claim_c8_upload_retry
  ⟨h.2.2.1 _ _ rfl rfl rfl,
   h.2.2.2.1 _ _ rfl rfl rfl,
   h.2.2.2.2.1 "u" "j" "http://sb" demoResultData.pages _ _
     (fun t _ => ⟨0, by omega, rfl⟩),
   h.2.2.2.2.2.1 "u" "j" "http://sb" demoResultData.pages _ _
     { path := "u/j/0.png", data := "QUJD" }
     [{ path := "u/j/1.png", data := "RA==" }] rfl rfl rfl rfl,
   h.2.2.2.2.2.2 "u" "j" "http://sb" demoResultData.pages
     (fun p _ => p == "u/j/0.png") (fun p k => p ++ ":" ++ toString k)
     { path := "u/j/1.png", data := "RA==" } (by decide) (fun _ _ => rfl)⟩

theorem length_filter_lt_of_mem_not {α : Type} (l : List α) (p : α → Bool)
    (x : α) (hx : x ∈ l) (hpx : p x = false) :
    (l.filter p).length < l.length := by
  induction l with
  | nil => cases hx
  | cons a tl ih =>
    rw [List.filter_cons]
    rcases List.mem_cons.mp hx with rfl | hx'
    · rw [if_neg (by simp [hpx])]
      simp only [List.length_cons]
      have hle := List.length_filter_le p tl
      omega
    · by_cases hpa : p a = true
      · rw [if_pos (by simp [hpa])]
        simp only [List.length_cons]
        exact Nat.succ_lt_succ (ih hx')
      · rw [if_neg (by simp [hpa])]
        simp only [List.length_cons]
        have hlt := ih hx'
        omega

/-- C9: a component whose base64 field is missing or empty is skipped
by the collection loop: the metadata and task lists range over exactly
the non-empty-base64 components of the page-order flattening (so no
upload is attempted and no URL entry produced for a skipped one), and
the returned metadata list is strictly shorter than the component
count whenever some component lacks a payload. -/
theorem claim_c9_empty_base64_skipped (userId jobId url : String)
    (pages : List PageData) :
    (eligible_components pages
      = (pages.flatMap fun p => p.components.map fun c => (p.page_number, c)).filter
          (fun pc => pc.2.base64.getD "" ≠ "")) ∧
    (upload_components_plan userId jobId url pages).1
      = (eligible_components pages).map (metaFor userId jobId url) ∧
    (upload_components_plan userId jobId url pages).2
      = (eligible_components pages).map (taskFor userId jobId) ∧
    (upload_components_plan userId jobId url pages).1.length
      = (upload_components_plan userId jobId url pages).2.length ∧
    (upload_components_plan userId jobId url pages).1.length
      ≤ (pages.flatMap fun p => p.components.map fun c => (p.page_number, c)).length ∧
    ((∃ pc ∈ pages.flatMap fun p => p.components.map fun c => (p.page_number, c),
        pc.2.base64.getD "" = "") →
      (upload_components_plan userId jobId url pages).1.length
        < (pages.flatMap fun p => p.components.map fun c => (p.page_number, c)).length) := by
  have hpair : ∀ (n : Int) (comps : List CompData),
      (comps.filter fun c => c.base64.getD "" ≠ "").map (fun c => (n, c))
        = (comps.map fun c => (n, c)).filter
            (fun pc => pc.2.base64.getD "" ≠ "") := by
    intro n comps
    induction comps with
    | nil => rfl
    | cons a tl ih =>
      rw [List.filter_cons, List.map_cons, List.filter_cons]
      by_cases h : a.base64.getD "" = ""
      · rw [if_neg (by simp [h]), if_neg (by simp [h])]
        exact ih
      · rw [if_pos (by simp [h]), if_pos (by simp [h]), List.map_cons, ih]
  have h1 : eligible_components pages
      = (pages.flatMap fun p => p.components.map fun c => (p.page_number, c)).filter
          (fun pc => pc.2.base64.getD "" ≠ "") := by
    induction pages with
    | nil => rfl
    | cons p ps ih =>
      simp only [eligible_components, List.flatMap_cons] at ih ⊢
      rw [List.filter_append, hpair p.page_number p.components, ih]
  have hlen1 : (upload_components_plan userId jobId url pages).1.length
      = (eligible_components pages).length := by
    simp [upload_components_plan]
  refine ⟨h1, rfl, rfl, by simp [upload_components_plan], ?_, ?_⟩
  · rw [hlen1, h1]
    exact List.length_filter_le _ _
  · rintro ⟨pc, hmem, hempty⟩
    rw [hlen1, h1]
    exact length_filter_lt_of_mem_not _ _ pc hmem (by simp [hempty])

/-- C9 witness: the demo result data has one component without base64
(page 2, id 2), so the plan's metadata list is strictly shorter than
the flattened component count. -/
theorem claim_c9_empty_base64_skipped_witness :
    (upload_components_plan "u" "j" "http://sb" demoResultData.pages).1.length
      < (demoResultData.pages.flatMap fun p =>
          p.components.map fun c => (p.page_number, c)).length :=
  (claim_c9_empty_base64_skipped "u" "j" "http://sb" demoResultData.pages).2.2.2.2.2
    ⟨(2, { id := 2, category := none, original_label := none, confidence := none,
           bbox := none, base64 := none, url := none }), by decide, rfl⟩
